import Mathlib

/-!
Shallow embedding of the Cascade word-puzzle engine.

Sources embedded here:
* `src/src/types.ts` — grid constants, `fallTargets`, scoring tables;
* `src/src/board.ts` — the `Board` class (grid of optional tiles and its
  operations, including `applyGravity`, `readRow`, `scoreWord`);
* `src/unnamed/part_001` — the live `Game` controller (per-tile gravity
  `processGravity`, `dropFromHand`, `findLeftmostEmpty`, hand-refill,
  `evaluateBoard`);
* `src/src/input.ts` — pointer handling (`onPointerDown`, drag start on
  threshold crossing, `onPointerUp` drop resolution);
* `src/unnamed/part_003` — the dictionary module (`isWord`,
  `isDictionaryLoaded`).

Modelling conventions: TS numbers indexing the grid are `Nat`; timestamps
(`performance.now()`, `nextFallAt`) are `Nat` milliseconds; `Math.round` on
the scores (which are exact multiples of 1/2 in IEEE754 at these magnitudes)
is `jsRound : ℚ → ℤ`, rounding half up exactly as JS does; `null`/`undefined`
are `Option`.  Renderer-only tile fields (`visualX`, `visualY`, `settledAt`,
`spawnedAt`) carry no game-semantic weight (spec §3) and are omitted from the
logical tile.  JS string `toUpperCase` on the ASCII letters used by the game
is `jsToUpper` (character-wise upper-casing).
-/

namespace Cascade

-- ── Grid geometry (src/src/types.ts) ──────────────────────────

structure GridPos where
  row : Nat
  col : Nat
deriving DecidableEq, Repr

/-- `ROW_WIDTHS = [7, 6, 5, 4, 3, 2]` (types.ts). -/
def ROW_WIDTHS : List Nat := [7, 6, 5, 4, 3, 2]

def NUM_ROWS : Nat := ROW_WIDTHS.length

def TOTAL_POSITIONS : Nat := 27

def rowWidth (r : Nat) : Nat := ROW_WIDTHS.getD r 0

def FALL_TICK_MS : Nat := 350

/-- `fallTargets` (types.ts lines 148-171): the at-most-two candidate cells in
row `r+1` a tile at `(r, c)` may fall into; down-left `(r+1, c-1)` is pushed
before down-right `(r+1, c)`, each guarded by the next row's width.  The TS
`downLeft >= 0` guard becomes `1 ≤ p.col` since columns are `Nat` here. -/
def fallTargets (p : GridPos) : List GridPos :=
  if NUM_ROWS - 1 ≤ p.row then []
  else
    let w := rowWidth (p.row + 1)
    (if 1 ≤ p.col ∧ p.col - 1 < w then [⟨p.row + 1, p.col - 1⟩] else []) ++
    (if p.col < w then [⟨p.row + 1, p.col⟩] else [])

-- ── Tiles ─────────────────────────────────────────────────────

/-- Logical tile (types.ts `Tile` minus the renderer-only fields). -/
structure Tile where
  id : Nat
  letter : String
  pos : GridPos
  settled : Bool
  nextFallAt : Option Nat
deriving DecidableEq, Repr

-- ── Board representation (src/src/board.ts) ───────────────────

/-- `Board.grid : (Tile | null)[][]`. -/
abbrev Board := List (List (Option Tile))

/-- `Board.get`: `this.grid[pos.row]?.[pos.col] ?? null`. -/
def bget (b : Board) (r c : Nat) : Option Tile :=
  (b.getD r []).getD c none

/-- `Board.set`: `this.grid[pos.row][pos.col] = tile`. -/
def bset (b : Board) (r c : Nat) (v : Option Tile) : Board :=
  b.set r ((b.getD r []).set c v)

def isEmptyPos (b : Board) (p : GridPos) : Bool :=
  (bget b p.row p.col).isNone

/-- All valid grid cells, row-major (row 0 first, columns ascending). -/
def cellsOfRow (r : Nat) : List GridPos :=
  (List.range (rowWidth r)).map (fun c => ⟨r, c⟩)

def allCells : List GridPos :=
  ((List.range NUM_ROWS).map cellsOfRow).flatten

/-- The non-hand cells in the scan order of `Game.findLeftmostEmpty`
(rows 1..NUM_ROWS-1 top-to-bottom, columns left-to-right). -/
def nonHandCells : List GridPos :=
  (((List.range NUM_ROWS).drop 1).map cellsOfRow).flatten

/-- `Board.emptyInRow` (board.ts lines 57-63). -/
def emptyInRow (b : Board) (r : Nat) : List Nat :=
  (List.range (rowWidth r)).filter (fun c => (bget b r c).isNone)

/-- `Board.filledCount` (board.ts lines 42-50). -/
def filledCount (b : Board) : Nat :=
  (allCells.filter (fun p => (bget b p.row p.col).isSome)).length

/-- `Board.isFull` (board.ts lines 52-54). -/
def isFull (b : Board) : Bool :=
  filledCount b == TOTAL_POSITIONS

/-- `Board.isRowFull` (board.ts lines 124-129). -/
def isRowFull (b : Board) (r : Nat) : Bool :=
  (List.range (rowWidth r)).all (fun c => (bget b r c).isSome)

/-- `Board.clearAll` (board.ts lines 154-160) produces the all-empty grid. -/
def emptyBoard : Board :=
  ROW_WIDTHS.map (fun w => List.replicate w none)

-- ── Words and scoring ─────────────────────────────────────────

/-- JS `toUpperCase()` restricted to the game's ASCII letters. -/
def jsToUpper (s : String) : String :=
  ⟨s.data.map Char.toUpper⟩

/-- `SCRABBLE_VALUES` (types.ts lines 43-47); `?? 0` for any other char. -/
def scrabbleValue (ch : Char) : Nat :=
  match ch with
  | 'A' => 1 | 'B' => 3 | 'C' => 3 | 'D' => 2 | 'E' => 1 | 'F' => 4
  | 'G' => 2 | 'H' => 4 | 'I' => 1 | 'J' => 8 | 'K' => 5 | 'L' => 1
  | 'M' => 3 | 'N' => 1 | 'O' => 1 | 'P' => 3 | 'Q' => 10 | 'U' => 1
  | 'R' => 1 | 'S' => 1 | 'T' => 1 | 'V' => 4 | 'W' => 4 | 'X' => 8
  | 'Y' => 4 | 'Z' => 10
  | _ => 0

/-- `LENGTH_MULTIPLIERS` (types.ts lines 49-51); `?? 1` default in
`Board.scoreWord`. -/
def lengthMultiplier (n : Nat) : ℚ :=
  if n = 2 then 1 else if n = 3 then 3/2 else if n = 4 then 2
  else if n = 5 then 3 else if n = 6 then 4 else if n = 7 then 6 else 1

/-- `Math.round` as applied by `Board.scoreWord`: its argument is always a
non-negative exact multiple of 1/2 (integer · multiplier from the table), and
JS rounds halves up, i.e. `⌊q + 1/2⌋`. -/
def jsRound (q : ℚ) : ℤ := ⌊q + 1/2⌋

/-- Sum of `SCRABBLE_VALUES[ch] ?? 0` over the characters of a word. -/
def scrabbleSum (w : String) : Nat :=
  (w.data.map scrabbleValue).sum

/-- `Board.scoreWord` (board.ts lines 132-139). -/
def scoreWord (w : String) : ℤ :=
  jsRound ((scrabbleSum w : ℚ) * lengthMultiplier w.length)

/-- The letter-by-letter accumulation of `Board.readRow` over a list of
column indices; `none` encodes the early `return ''` on an empty cell. -/
def collectRow (b : Board) (r : Nat) : List Nat → Option String
  | [] => some ""
  | c :: cs =>
    match bget b r c with
    | none => none
    | some t => (collectRow b r cs).map (fun rest => t.letter ++ rest)

/-- `Board.readRow` (board.ts lines 113-121). -/
def readRow (b : Board) (r : Nat) : String :=
  jsToUpper ((collectRow b r (List.range (rowWidth r))).getD "")

-- ── Dictionary (src/unnamed/part_003) ─────────────────────────

structure Dict where
  loaded : Bool
  words : List String

/-- `isDictionaryLoaded` (`wordSet !== null`). -/
def isDictionaryLoaded (d : Dict) : Bool := d.loaded

/-- `isWord`: `false` when not loaded, else membership of the upper-cased
word in the loaded set. -/
def isWord (d : Dict) (w : String) : Bool :=
  if d.loaded then d.words.contains (jsToUpper w) else false

-- ── Game controller state (src/unnamed/part_001) ──────────────

inductive GamePhase where
  | start
  | playing
  | clearing
  | roundEnd
deriving DecidableEq, Repr

/-- `RowResult` (part_001 lines 22-27). -/
structure RowResult where
  row : Nat
  word : String
  valid : Bool
  score : ℤ
deriving DecidableEq, Repr

/-- The game-semantic fields of the `Game` controller.  Timer handles are
abstracted to their pending/active status: `refillPending` is the set of
columns with a live entry in `refillTimers`, `roundTimer` is whether the
1-second countdown interval is live.  Renderer-only fields (`floatingScores`,
`clearStartTime`, raf ids, high-score bookkeeping) are omitted. -/
structure GameState where
  board : Board
  phase : GamePhase
  score : ℤ
  timeLeft : Nat
  inputEnabled : Bool
  refillPending : List Nat
  roundTimer : Bool
  clearResults : List RowResult
  isPerfectBoard : Bool
  nextTileId : Nat
deriving DecidableEq, Repr

-- ── Board evaluation (part_001 `evaluateBoard`, lines 369-451) ─

/-- One iteration of the `evaluateBoard` row loop: read the row, skip it when
the word is empty, otherwise record validity and `scoreWord`-or-0. -/
def evalRow (d : Dict) (b : Board) (r : Nat) : Option RowResult :=
  let word := readRow b r
  if word.length = 0 then none
  else
    let valid := isWord d word
    some ⟨r, word, valid, if valid then scoreWord word else 0⟩

/-- The `clearResults` list built by `evaluateBoard`'s row loop. -/
def evalResults (d : Dict) (b : Board) : List RowResult :=
  (List.range NUM_ROWS).filterMap (evalRow d b)

/-- `roundScore` accumulated by the row loop: `if (valid && score > 0)
roundScore += score`. -/
def roundScoreOf (results : List RowResult) : ℤ :=
  (results.map (fun e => if e.valid = true ∧ 0 < e.score then e.score else 0)).sum

/-- `Game.evaluateBoard` (part_001 lines 369-451) up to the scheduled
clear-and-resume callback (displayed later; modelled separately by
`clearResume`).  Returns the state unchanged when the dictionary has not
loaded.  `stopTimers` clears the round interval and all refill timers. -/
def evaluateBoard (d : Dict) (s : GameState) : GameState :=
  if !isDictionaryLoaded d then s
  else
    let results := evalResults d s.board
    let roundScore := roundScoreOf results
    let allValid := 0 < results.length ∧ results.all (fun e => e.valid) = true
    let roundScore' := if allValid ∧ 0 < roundScore then 2 * roundScore else roundScore
    { s with
      phase := .clearing
      inputEnabled := false
      roundTimer := false
      refillPending := []
      clearResults := results
      isPerfectBoard := decide allValid
      score := s.score + roundScore' }

/-- The deferred `setTimeout` body at the end of `evaluateBoard`: clear the
board, resume play (hand refill elided here; it places fresh hand tiles). -/
def clearResume (s : GameState) : GameState :=
  { s with board := emptyBoard, clearResults := [], phase := .playing, inputEnabled := true }

-- ── Hand drop (part_001 `dropFromHand` / `findLeftmostEmpty`) ─

/-- `Game.findLeftmostEmpty` (part_001 lines 272-281): first empty cell
scanning rows 1.. top-to-bottom, columns left-to-right. -/
def findLeftmostEmpty (b : Board) : Option GridPos :=
  nonHandCells.find? (fun p => isEmptyPos b p)

/-- `Game.scheduleHandRefill` timer bookkeeping: an existing pending timer
for the column is cancelled and replaced, so the column is pending exactly
once afterwards. -/
def scheduleRefill (col : Nat) (pending : List Nat) : List Nat :=
  if col ∈ pending then pending else col :: pending

/-- `Game.dropFromHand` (part_001 lines 252-270). -/
def dropFromHand (now : Nat) (pos : GridPos) (s : GameState) : GameState :=
  match bget s.board pos.row pos.col with
  | none => s
  | some tile =>
    match findLeftmostEmpty s.board with
    | none => s
    | some target =>
      let b1 := bset s.board tile.pos.row tile.pos.col none
      let tile' : Tile :=
        { tile with settled := false, nextFallAt := some (now + FALL_TICK_MS), pos := target }
      { s with
        board := bset b1 target.row target.col (some tile')
        refillPending := scheduleRefill pos.col s.refillPending }

/-- The `onHandClick` handler installed by the `Game` constructor (part_001
lines 82-85): ignore the tap unless the phase is `playing`. -/
def handTap (now : Nat) (pos : GridPos) (s : GameState) : GameState :=
  if s.phase = .playing then dropFromHand now pos s else s

/-- The firing of a hand-refill timer for `col` (part_001 lines 287-301):
the timer deletes itself, re-checks phase and slot emptiness, places a fresh
tile (`createTile` with the next id, settled), and evaluates a now-full
board.  The generated letter is a parameter (the PRNG draw). -/
def refillFire (d : Dict) (letter : String) (col : Nat) (s : GameState) : GameState :=
  let s0 := { s with refillPending := s.refillPending.erase col }
  if s.phase ≠ .playing then s0
  else if !isEmptyPos s.board ⟨0, col⟩ then s0
  else
    let tile : Tile :=
      { id := s.nextTileId, letter := letter, pos := ⟨0, col⟩, settled := true, nextFallAt := none }
    let b' := bset s.board 0 col (some tile)
    let s1 := { s0 with board := b', nextTileId := s.nextTileId + 1 }
    if isFull b' then evaluateBoard d s1 else s1

-- ── Per-tile gravity (part_001 `processGravity`, lines 308-365)

/-- Generic runner for the gravity loops: apply a cell-step function over a
list of cells, threading `(board, flag)`. -/
def runCells (f : GridPos → Board × Bool → Board × Bool) :
    List GridPos → Board × Bool → Board × Bool
  | [], acc => acc
  | p :: ps, acc => runCells f ps (f p acc)

/-- One iteration of the `processGravity` cell loop (part_001 lines 315-348):
settle when the row below is full, start the fall cadence when it is not,
and move one row down into the leftmost empty column once the cadence
timestamp has elapsed. -/
def stepCell (now : Nat) (p : GridPos) (acc : Board × Bool) : Board × Bool :=
  let b := acc.1
  match bget b p.row p.col with
  | none => acc
  | some tile =>
    if tile.pos.row = 0 then acc
    else
      let nextRow := p.row + 1
      match emptyInRow b nextRow with
      | [] =>
        if tile.settled then acc
        else (bset b p.row p.col (some { tile with settled := true, nextFallAt := none }), true)
      | e :: _ =>
        match tile.nextFallAt with
        | none =>
          (bset b p.row p.col
            (some { tile with nextFallAt := some (now + FALL_TICK_MS), settled := false }), acc.2)
        | some due =>
          if now < due then acc
          else
            let tile' : Tile :=
              { tile with pos := ⟨nextRow, e⟩, nextFallAt := some (now + FALL_TICK_MS) }
            (bset (bset b tile.pos.row tile.pos.col none) nextRow e (some tile'), acc.2)

/-- The bottom-row settle pass (part_001 lines 352-359). -/
def bottomStep (p : GridPos) (acc : Board × Bool) : Board × Bool :=
  match bget acc.1 p.row p.col with
  | none => acc
  | some tile =>
    if tile.settled then acc
    else (bset acc.1 p.row p.col (some { tile with settled := true, nextFallAt := none }), true)

/-- The cells visited by the main `processGravity` loop: rows
`NUM_ROWS-2` down to `1`, columns ascending. -/
def gravCells : List GridPos :=
  (((List.range (NUM_ROWS - 2)).reverse.map (fun i => i + 1)).map cellsOfRow).flatten

/-- `processGravity`'s board transformation plus its `anySettled` flag. -/
def processGravityB (now : Nat) (b : Board) : Board × Bool :=
  runCells bottomStep (cellsOfRow (NUM_ROWS - 1)) (runCells (stepCell now) gravCells (b, false))

/-- `Game.processGravity` (part_001 lines 308-365): no-op outside `playing`;
otherwise run the two passes and evaluate the board if a settle event left
it full. -/
def processGravity (d : Dict) (now : Nat) (s : GameState) : GameState :=
  if s.phase ≠ .playing then s
  else
    let acc := processGravityB now s.board
    let s' := { s with board := acc.1 }
    if acc.2 && isFull acc.1 then evaluateBoard d s' else s'

-- ── Synchronous gravity (board.ts `applyGravity`, lines 69-110)

/-- One iteration of the `applyGravity` cell loop: move into the first empty
`fallTargets` candidate, else mark the tile settled when no candidate is
empty. -/
def applyStep (p : GridPos) (acc : Board × Bool) : Board × Bool :=
  let b := acc.1
  match bget b p.row p.col with
  | none => acc
  | some tile =>
    match (fallTargets tile.pos).find? (fun q => (bget b q.row q.col).isNone) with
    | some q =>
      (bset (bset b tile.pos.row tile.pos.col none) q.row q.col
        (some { tile with pos := q, settled := false }), true)
    | none =>
      if tile.settled then acc
      else (bset b p.row p.col (some { tile with settled := true }), acc.2)

/-- The bottom-row pass of `applyGravity` (board.ts lines 104-107). -/
def applyBottomStep (p : GridPos) (acc : Board × Bool) : Board × Bool :=
  match bget acc.1 p.row p.col with
  | none => acc
  | some tile => (bset acc.1 p.row p.col (some { tile with settled := true }), acc.2)

/-- The cells visited by `applyGravity`'s main loop: rows `NUM_ROWS-2` down
to `0` — note this includes the hand row 0. -/
def applyCells : List GridPos :=
  (((List.range (NUM_ROWS - 1)).reverse).map cellsOfRow).flatten

/-- `Board.applyGravity` (board.ts lines 69-110); the `Bool` is `anyMoved`. -/
def applyGravityB (b : Board) : Board × Bool :=
  runCells applyBottomStep (cellsOfRow (NUM_ROWS - 1)) (runCells applyStep applyCells (b, false))

-- ── Pointer input (src/src/input.ts) ──────────────────────────

/-- `DragState` minus the pixel offsets (input.ts lines 4-9). -/
structure DragState where
  tile : Tile
  originPos : GridPos
deriving DecidableEq, Repr

/-- Modelled from the spec: `Board.isCovered` is called by
`Input.onPointerDown` (input.ts line 93) but its definition is not among the
provided sources.  Spec §4.2 and glossary: "A tile is covered (and thus
undraggable) if either of the two positions above it in the wider row
directly above is occupied; hand tiles are never covered."  The two parent
positions of `(r, c)` — the cells whose `fallTargets` include `(r, c)` — are
`(r-1, c)` and `(r-1, c+1)`. -/
def isCovered (b : Board) (p : GridPos) : Bool :=
  decide (p.row ≠ 0) &&
    ((bget b (p.row - 1) p.col).isSome || (bget b (p.row - 1) (p.col + 1)).isSome)

/-- `Input.onPointerDown` (input.ts lines 68-110): `hit` is the
`pixelToGrid` result.  Hand tiles are always interactive; non-hand tiles
must be settled and uncovered, otherwise no drag state is prepared.  The
board itself is never mutated here. -/
def onPointerDown (enabled : Bool) (b : Board) (hit : Option GridPos) : Option DragState :=
  if !enabled then none
  else
    match hit with
    | none => none
    | some p =>
      match bget b p.row p.col with
      | none => none
      | some tile =>
        if p.row ≠ 0 ∧ (tile.settled = false ∨ isCovered b p = true) then none
        else some ⟨tile, p⟩

/-- The board effect of `Input.onPointerMove` (input.ts lines 112-133):
nothing happens without a prepared drag state or below the drag threshold;
crossing the threshold removes the tile from the board (at `tile.pos`) and
unsettles it.  The returned flag is `isDragging`. -/
def dragThresholdCross (drag : Option DragState) (crossed : Bool) (b : Board) : Board × Bool :=
  match drag with
  | none => (b, false)
  | some d =>
    if crossed then (bset b d.tile.pos.row d.tile.pos.col none, true) else (b, false)

/-- The board effect of `Input.onPointerUp` for an in-progress drag
(input.ts lines 155-186), composed with the `Game.onDrop` callback (part_001
lines 87-94) which arms the fall cadence for drops into rows 1..NUM_ROWS-2.
`dropTarget` is the highlighted target from the last `onPointerMove`; `alt`
is the `findNearestEmpty` result at release, used when the origin has been
re-occupied.  The final fallback force-places the dragged tile into its
origin with a bare `Board.set`. -/
def dragRelease (now : Nat) (b : Board) (tile : Tile) (origin : GridPos)
    (dropTarget alt : Option GridPos) : Board :=
  match dropTarget with
  | some q =>
    let nfa := if 1 ≤ q.row ∧ q.row < NUM_ROWS - 1 then some (now + FALL_TICK_MS)
               else tile.nextFallAt
    bset b q.row q.col (some { tile with pos := q, settled := false, nextFallAt := nfa })
  | none =>
    if (bget b origin.row origin.col).isNone then
      bset b origin.row origin.col
        (some { tile with pos := origin, settled := decide (origin.row = 0) })
    else
      match alt with
      | some a =>
        let nfa := if 1 ≤ a.row ∧ a.row < NUM_ROWS - 1 then some (now + FALL_TICK_MS)
                   else tile.nextFallAt
        bset b a.row a.col (some { tile with pos := a, settled := false, nextFallAt := nfa })
      | none =>
        bset b origin.row origin.col (some { tile with pos := origin, settled := true })

-- ── Auxiliary predicates used by the theorems ─────────────────

/-- Flag states a tile can be in while it is guaranteed not to move during
the current `processGravity` call: fully settled with no pending fall
timestamp, or freshly (re-)armed with a timestamp strictly in the future. -/
def flagOk (now : Nat) (t : Tile) : Prop :=
  t.settled = true ∧ t.nextFallAt = none ∨
  t.settled = false ∧ t.nextFallAt = some (now + FALL_TICK_MS)

/-- The letters the game ever puts on tiles: the generator's alphabet
(`LETTER_FREQS`, types.ts lines 55-61; the CASCADE intro letters are a
subset). -/
def validLetters : List String :=
  ["A", "B", "C", "D", "E", "F", "G", "H", "I", "J", "K", "L", "M",
   "N", "O", "P", "Qu", "R", "S", "T", "U", "V", "W", "X", "Y", "Z"]

/-- Whether the cell holds a "Qu" tile. -/
def quAt (b : Board) (r c : Nat) : Bool :=
  match bget b r c with
  | none => false
  | some t => t.letter == "Qu"

/-- Number of "Qu" tiles in row `r`. -/
def quCount (b : Board) (r : Nat) : Nat :=
  (List.range (rowWidth r)).countP (fun c => quAt b r c)

/-- The board has exactly the rows and row widths of `ROW_WIDTHS` (true of
every board the TS constructor or `clearAll` produces, and preserved by
`set`). -/
def shapeOk (b : Board) : Prop := b.map List.length = ROW_WIDTHS

instance : DecidablePred shapeOk := fun b => by
  unfold shapeOk; infer_instance

/-- Contribution of one cell to the number of occurrences of id `i`. -/
def idHit (i : Nat) (o : Option Tile) : Nat :=
  match o with
  | none => 0
  | some t => if t.id = i then 1 else 0

/-- Number of grid cells currently holding a tile with identity `i`. -/
def idsCount (i : Nat) (b : Board) : Nat :=
  (allCells.map (fun p => idHit i (bget b p.row p.col))).sum

/-- Every tile stored in the grid records its own cell in `pos` — the
redundancy the TS code maintains via `Board.place`. -/
def posOk (b : Board) : Bool :=
  allCells.all (fun p =>
    match bget b p.row p.col with
    | none => true
    | some t => decide (t.pos = p))

/-- Every tile on the board carries a letter the generator can produce. -/
def lettersOk (b : Board) : Bool :=
  allCells.all (fun p =>
    match bget b p.row p.col with
    | none => true
    | some t => validLetters.contains t.letter)

-- ── Concrete fixtures for witnesses and counterexamples ───────

def tileMk (i : Nat) (l : String) (r c : Nat) (st : Bool) (nfa : Option Nat) : Option Tile :=
  some { id := i, letter := l, pos := ⟨r, c⟩, settled := st, nextFallAt := nfa }

def stateMk (b : Board) (n : Nat) : GameState :=
  { board := b, phase := .playing, score := 0, timeLeft := 100, inputEnabled := true,
    refillPending := [], roundTimer := true, clearResults := [], isPerfectBoard := false,
    nextTileId := n }

/-- A dictionary that has not loaded. -/
def dictNone : Dict := ⟨false, []⟩

/-- Board with a single hand tile at `(0, 0)`. -/
def boardC1 : Board :=
  [ [tileMk 0 "A" 0 0 true none, none, none, none, none, none, none],
    [none, none, none, none, none, none],
    [none, none, none, none, none],
    [none, none, none, none],
    [none, none, none],
    [none, none] ]

/-- Board with a falling tile at `(1, 5)` whose fall timer has elapsed, rows
2..5 full except `(2, 0)`. -/
def boardC3 : Board :=
  [ [none, none, none, none, none, none, none],
    [none, none, none, none, none, tileMk 50 "A" 1 5 false (some 1000)],
    [none, tileMk 1 "A" 2 1 true none, tileMk 2 "A" 2 2 true none,
      tileMk 3 "A" 2 3 true none, tileMk 4 "A" 2 4 true none],
    [tileMk 5 "A" 3 0 true none, tileMk 6 "A" 3 1 true none,
      tileMk 7 "A" 3 2 true none, tileMk 8 "A" 3 3 true none],
    [tileMk 9 "A" 4 0 true none, tileMk 10 "A" 4 1 true none, tileMk 11 "A" 4 2 true none],
    [tileMk 12 "A" 5 0 true none, tileMk 13 "A" 5 1 true none] ]

def stateC3 : GameState := stateMk boardC3 100

/-- Board for the settle-monotonicity counterexample: tile 10 at `(3, 0)`
above a full row 4, with one empty slot in row 5. -/
def boardC9 : Board :=
  [ [none, none, none, none, none, none, none],
    [none, none, none, none, none, none],
    [none, none, none, none, none],
    [tileMk 10 "A" 3 0 false none, none, none, none],
    [tileMk 20 "A" 4 0 false none, tileMk 21 "A" 4 1 false none, tileMk 22 "A" 4 2 false none],
    [tileMk 30 "A" 5 0 true none, none] ]

def stateC9 : GameState := stateMk boardC9 100

/-- A full board whose every tile is an "A"; every row reads "AA..A". -/
def boardFullA : Board :=
  (List.range 6).map (fun r =>
    (List.range (rowWidth r)).map (fun c => tileMk (r * 10 + c) "A" r c true none))

def stateFullA : GameState := stateMk boardFullA 100

/-- Dictionary containing all six all-A row words. -/
def dictAllA : Dict := ⟨true, ["AAAAAAA", "AAAAAA", "AAAAA", "AAAA", "AAA", "AA"]⟩

/-- Dictionary missing the bottom-row word "AA". -/
def dictMissOne : Dict := ⟨true, ["AAAAAAA", "AAAAAA", "AAAAA", "AAAA", "AAA"]⟩

/-- Board whose bottom row spells "AT"; other rows empty. -/
def boardAT : Board :=
  [ [none, none, none, none, none, none, none],
    [none, none, none, none, none, none],
    [none, none, none, none, none],
    [none, none, none, none],
    [none, none, none],
    [tileMk 0 "A" 5 0 true none, tileMk 1 "T" 5 1 true none] ]

def dictAT : Dict := ⟨true, ["AT"]⟩

def dictZZ : Dict := ⟨true, ["ZZ"]⟩

/-- Board whose full width-2 bottom row holds a "Qu" tile: reads "QUA". -/
def boardQu2 : Board :=
  [ [none, none, none, none, none, none, none],
    [none, none, none, none, none, none],
    [none, none, none, none, none],
    [none, none, none, none],
    [none, none, none],
    [tileMk 0 "Qu" 5 0 true none, tileMk 1 "A" 5 1 true none] ]

/-- Board whose full width-7 row 0 holds a "Qu" tile: reads "QUAAAAAA"
(8 characters). -/
def boardQu7 : Board :=
  [ [tileMk 0 "Qu" 0 0 true none, tileMk 1 "A" 0 1 true none, tileMk 2 "A" 0 2 true none,
      tileMk 3 "A" 0 3 true none, tileMk 4 "A" 0 4 true none, tileMk 5 "A" 0 5 true none,
      tileMk 6 "A" 0 6 true none],
    [none, none, none, none, none, none],
    [none, none, none, none, none],
    [none, none, none, none],
    [none, none, none],
    [none, none] ]

/-- The dragged tile of the forced-origin counterexample: identity 100,
removed from the board at drag start while `boardFullA` filled up. -/
def tileDragged : Tile :=
  { id := 100, letter := "B", pos := ⟨1, 0⟩, settled := false, nextFallAt := none }

/-- Board with one hand tile at `(0, 0)` and an otherwise empty grid, the
`playing`-phase state around it, and a covered-tile fixture. -/
def boardHand : Board :=
  [ [tileMk 7 "A" 0 0 true none, none, none, none, none, none, none],
    [none, none, none, none, none, none],
    [none, none, none, none, none],
    [none, none, none, none],
    [none, none, none],
    [none, none] ]

def stateHand : GameState := stateMk boardHand 50

/-- Board where the settled tile at `(1, 0)` is covered by the hand tile at
`(0, 0)` directly above it. -/
def boardCovered : Board :=
  [ [tileMk 0 "A" 0 0 true none, none, none, none, none, none, none],
    [tileMk 1 "B" 1 0 true none, none, none, none, none, none],
    [none, none, none, none, none],
    [none, none, none, none],
    [none, none, none],
    [none, none] ]

/-!
## Infrastructure lemmas

Generic facts about list access, the board's shape, and the number of
occurrences of a tile identity on the board.
-/

theorem lgetD_set_self {α : Type} (l : List α) (n : Nat) (a d : α) :
    (l.set n a).getD n d = if n < l.length then a else l.getD n d := by
  induction l generalizing n with
  | nil => simp
  | cons x xs ih =>
    cases n with
    | zero => simp
    | succ m => simpa [Nat.succ_lt_succ_iff] using ih m

theorem lgetD_set_ne {α : Type} (l : List α) (n m : Nat) (a d : α) (h : n ≠ m) :
    (l.set n a).getD m d = l.getD m d := by
  induction l generalizing n m with
  | nil => simp
  | cons x xs ih =>
    cases n with
    | zero =>
      cases m with
      | zero => exact absurd rfl h
      | succ k => simp
    | succ j =>
      cases m with
      | zero => simp
      | succ k => simpa using ih j k (by omega)

theorem lgetD_map {α β : Type} (f : α → β) (l : List α) (n : Nat) (d : α) :
    (l.map f).getD n (f d) = f (l.getD n d) := by
  induction l generalizing n with
  | nil => simp
  | cons x xs ih =>
    cases n with
    | zero => simp
    | succ m => simp [ih m]

theorem lmap_set {α β : Type} (f : α → β) (l : List α) (n : Nat) (a : α) :
    (l.set n a).map f = (l.map f).set n (f a) := by
  induction l generalizing n with
  | nil => simp
  | cons x xs ih =>
    cases n with
    | zero => simp
    | succ m => simp [ih m]

theorem lset_getD_self {α : Type} (l : List α) (n : Nat) (d : α) :
    l.set n (l.getD n d) = l := by
  induction l generalizing n with
  | nil => simp
  | cons x xs ih =>
    cases n with
    | zero => simp
    | succ m => simpa using ih m

theorem lgetD_eq_of_oob {α : Type} (l : List α) (n : Nat) (d : α) (h : l.length ≤ n) :
    l.getD n d = d := by
  induction l generalizing n with
  | nil => simp
  | cons x xs ih =>
    cases n with
    | zero => simp at h
    | succ m => simpa using ih m (by simpa using h)

theorem find_eq_head_filter {α : Type} (p : α → Bool) (l : List α) :
    l.find? p = (l.filter p).head? := by
  induction l with
  | nil => simp
  | cons x xs ih =>
    by_cases hx : p x = true
    · simp [List.find?, List.filter, hx]
    · simp only [List.find?, List.filter, Bool.not_eq_true] at hx ⊢
      rw [hx]
      exact ih

theorem sum_map_swap_at {l : List GridPos} {f g : GridPos → Nat} {q : GridPos}
    (hmem : q ∈ l) (hnd : l.Nodup)
    (hoff : ∀ p ∈ l, p ≠ q → f p = g p) :
    (l.map f).sum + g q = (l.map g).sum + f q := by
  induction l with
  | nil => cases hmem
  | cons x xs ih =>
    have hnd' := (List.nodup_cons.mp hnd).2
    have hx := (List.nodup_cons.mp hnd).1
    by_cases hxq : x = q
    · subst hxq
      have hcongr : xs.map f = xs.map g := by
        apply List.map_congr_left
        intro p hp
        exact hoff p (List.mem_cons_of_mem _ hp) (fun hpq => hx (hpq ▸ hp))
      simp only [List.map_cons, List.sum_cons, hcongr]
      omega
    · have hmem' : q ∈ xs := by
        rcases List.mem_cons.mp hmem with h | h
        · exact absurd h.symm hxq
        · exact h
      have hfx : f x = g x := hoff x (List.mem_cons_self x xs) hxq
      have := ih hmem' hnd' (fun p hp hpq => hoff p (List.mem_cons_of_mem _ hp) hpq)
      simp only [List.map_cons, List.sum_cons, hfx]
      omega

theorem sum_int_pos (l : List ℤ) (h0 : ∀ x ∈ l, 0 ≤ x) (hex : ∃ x ∈ l, 0 < x) :
    0 < l.sum := by
  induction l with
  | nil => simp at hex
  | cons x xs ih =>
    rcases hex with ⟨y, hy, hypos⟩
    have hxs0 : ∀ z ∈ xs, 0 ≤ z := fun z hz => h0 z (List.mem_cons_of_mem _ hz)
    have hsum0 : 0 ≤ xs.sum := List.sum_nonneg hxs0
    rcases List.mem_cons.mp hy with h | h
    · subst h; simp only [List.sum_cons]; omega
    · have := ih hxs0 ⟨y, h, hypos⟩
      have hx0 := h0 x (List.mem_cons_self x xs)
      simp only [List.sum_cons]; omega

-- ── Board shape ───────────────────────────────────────────────

theorem shapeOk_length {b : Board} (h : shapeOk b) : b.length = 6 := by
  have := congrArg List.length h
  simpa [ROW_WIDTHS] using this

theorem shapeOk_rowLen {b : Board} (h : shapeOk b) (r : Nat) :
    (b.getD r []).length = rowWidth r := by
  have h1 : (b.map List.length).getD r ([] : List (Option Tile)).length = (b.getD r []).length :=
    lgetD_map List.length b r []
  simp only [List.length_nil] at h1
  rw [h] at h1
  exact h1.symm

theorem rowWidth_oob {r : Nat} (h : 6 ≤ r) : rowWidth r = 0 := by
  unfold rowWidth
  exact lgetD_eq_of_oob _ _ _ (by simpa [ROW_WIDTHS] using h)

theorem row_lt_of_width_pos {r : Nat} (h : 0 < rowWidth r) : r < 6 := by
  by_contra hc
  rw [rowWidth_oob (by omega)] at h
  omega

theorem shapeOk_bset {b : Board} (h : shapeOk b) (r c : Nat) (v : Option Tile) :
    shapeOk (bset b r c v) := by
  unfold shapeOk bset
  rw [lmap_set]
  have hlen : ((b.getD r []).set c v).length = (b.getD r []).length := by simp
  rw [hlen]
  have : (b.getD r []).length = (b.map List.length).getD r 0 := by
    have := lgetD_map List.length b r []
    simpa using this.symm
  rw [this, h]
  have : ROW_WIDTHS.getD r 0 = rowWidth r := rfl
  rw [this]
  have hw : ROW_WIDTHS.set r (rowWidth r) = ROW_WIDTHS := by
    have := lset_getD_self ROW_WIDTHS r 0
    simpa [rowWidth] using this
  rw [h] at *
  exact hw

theorem bget_oob {b : Board} (h : shapeOk b) {r c : Nat} (hc : rowWidth r ≤ c) :
    bget b r c = none := by
  unfold bget
  apply lgetD_eq_of_oob
  rw [shapeOk_rowLen h]
  exact hc

theorem bget_some_bounds {b : Board} (h : shapeOk b) {r c : Nat} {t : Tile}
    (ht : bget b r c = some t) : r < 6 ∧ c < rowWidth r := by
  by_cases hc : c < rowWidth r
  · exact ⟨row_lt_of_width_pos (by omega), hc⟩
  · rw [bget_oob h (by omega)] at ht; cases ht

theorem bget_bset_self {b : Board} (h : shapeOk b) {r c : Nat}
    (hr : r < 6) (hc : c < rowWidth r) (v : Option Tile) :
    bget (bset b r c v) r c = v := by
  unfold bget bset
  rw [lgetD_set_self]
  rw [if_pos (by rw [shapeOk_length h]; exact hr)]
  rw [lgetD_set_self]
  rw [if_pos (by rw [shapeOk_rowLen h]; exact hc)]

theorem bget_bset_ne (b : Board) (r c : Nat) (v : Option Tile) (r' c' : Nat)
    (h : r ≠ r' ∨ c ≠ c') : bget (bset b r c v) r' c' = bget b r' c' := by
  unfold bget bset
  by_cases hr : r = r'
  · subst hr
    have hc : c ≠ c' := by tauto
    rw [lgetD_set_self]
    by_cases hlen : r < b.length
    · rw [if_pos hlen, lgetD_set_ne _ _ _ _ _ hc]
    · rw [if_neg hlen]
  · rw [lgetD_set_ne _ _ _ _ _ hr]

theorem mem_allCells {p : GridPos} :
    p ∈ allCells ↔ p.row < 6 ∧ p.col < rowWidth p.row := by
  constructor
  · intro h
    simp only [allCells, cellsOfRow, List.mem_flatten, List.mem_map, List.mem_range] at h
    rcases h with ⟨l, ⟨r, hr, rfl⟩, hp⟩
    simp only [List.mem_map, List.mem_range] at hp
    rcases hp with ⟨c, hc, rfl⟩
    exact ⟨by simpa [NUM_ROWS, ROW_WIDTHS] using hr, hc⟩
  · rintro ⟨hr, hc⟩
    simp only [allCells, cellsOfRow, List.mem_flatten, List.mem_map, List.mem_range]
    refine ⟨(List.range (rowWidth p.row)).map (fun c => ⟨p.row, c⟩), ⟨p.row, by simpa [NUM_ROWS, ROW_WIDTHS] using hr, rfl⟩, ?_⟩
    simp only [List.mem_map, List.mem_range]
    exact ⟨p.col, hc, rfl⟩

theorem allCells_nodup : allCells.Nodup := by decide

-- ── Tile-identity counting ────────────────────────────────────

theorem idHit_congr {i : Nat} {t u : Tile} (h : u.id = t.id) :
    idHit i (some u) = idHit i (some t) := by
  simp [idHit, h]

theorem idsCount_bset {b : Board} (hsh : shapeOk b) {r c : Nat}
    (hr : r < 6) (hc : c < rowWidth r) (v : Option Tile) (i : Nat) :
    idsCount i (bset b r c v) + idHit i (bget b r c) = idsCount i b + idHit i v := by
  have hmem : (⟨r, c⟩ : GridPos) ∈ allCells := mem_allCells.mpr ⟨hr, hc⟩
  have hoff : ∀ p ∈ allCells, p ≠ (⟨r, c⟩ : GridPos) →
      idHit i (bget (bset b r c v) p.row p.col) = idHit i (bget b p.row p.col) := by
    intro p _ hp
    have : r ≠ p.row ∨ c ≠ p.col := by
      by_contra hcon
      push_neg at hcon
      exact hp (by cases p; simp_all)
    rw [bget_bset_ne _ _ _ _ _ _ this]
  have := sum_map_swap_at hmem allCells_nodup hoff
  rw [bget_bset_self hsh hr hc] at this
  exact this

theorem idsCount_eq_zero {b : Board} {i : Nat}
    (h : ∀ r c t, bget b r c = some t → t.id ≠ i) : idsCount i b = 0 := by
  unfold idsCount
  apply List.sum_eq_zero
  intro x hx
  simp only [List.mem_map] at hx
  rcases hx with ⟨p, _, rfl⟩
  cases ht : bget b p.row p.col with
  | none => simp [idHit]
  | some t => simp [idHit, h p.row p.col t ht]

-- ── Position-consistency of the grid ──────────────────────────

theorem posOk_read {b : Board} (hsh : shapeOk b) (hp : posOk b = true) {r c : Nat} {t : Tile}
    (ht : bget b r c = some t) : t.pos = ⟨r, c⟩ := by
  obtain ⟨hr, hc⟩ := bget_some_bounds hsh ht
  have := List.all_eq_true.mp hp ⟨r, c⟩ (mem_allCells.mpr ⟨hr, hc⟩)
  rw [ht] at this
  exact of_decide_eq_true this

theorem posOk_bset {b : Board} (hsh : shapeOk b) (hp : posOk b = true) {r c : Nat}
    (hr : r < 6) (hc : c < rowWidth r) {v : Option Tile}
    (hv : ∀ t, v = some t → t.pos = ⟨r, c⟩) : posOk (bset b r c v) = true := by
  apply List.all_eq_true.mpr
  intro p hmem
  by_cases hpe : p = (⟨r, c⟩ : GridPos)
  · subst hpe
    rw [bget_bset_self hsh hr hc]
    cases v with
    | none => rfl
    | some t => simpa using hv t rfl
  · have hne : r ≠ p.row ∨ c ≠ p.col := by
      by_contra hcon
      push_neg at hcon
      exact hpe (by cases p; simp_all)
    rw [bget_bset_ne _ _ _ _ _ _ hne]
    exact List.all_eq_true.mp hp p hmem

-- ── Fold runner invariants ────────────────────────────────────

theorem runCells_inv {f : GridPos → Board × Bool → Board × Bool}
    {P : Board × Bool → Prop} :
    ∀ cells : List GridPos,
      (∀ p ∈ cells, ∀ acc, P acc → P (f p acc)) →
      ∀ acc, P acc → P (runCells f cells acc) := by
  intro cells
  induction cells with
  | nil => intro _ acc h; exact h
  | cons p ps ih =>
    intro hstep acc hacc
    exact ih (fun q hq => hstep q (List.mem_cons_of_mem _ hq)) _
      (hstep p (List.mem_cons_self _ _) acc hacc)

-- ── Facts about `emptyInRow` ──────────────────────────────────

theorem emptyInRow_mem {b : Board} {r c : Nat} :
    c ∈ emptyInRow b r ↔ c < rowWidth r ∧ bget b r c = none := by
  simp [emptyInRow, List.mem_filter, Option.isNone_iff_eq_none]

theorem emptyInRow_head {b : Board} {r e : Nat} {rest : List Nat}
    (h : emptyInRow b r = e :: rest) :
    e < rowWidth r ∧ bget b r e = none ∧ ∀ c ∈ emptyInRow b r, e ≤ c := by
  have hmem : e ∈ emptyInRow b r := by rw [h]; exact List.mem_cons_self _ _
  obtain ⟨he1, he2⟩ := emptyInRow_mem.mp hmem
  refine ⟨he1, he2, ?_⟩
  have hpw : (emptyInRow b r).Pairwise (· < ·) :=
    List.Pairwise.filter _ (List.pairwise_lt_range _)
  rw [h] at hpw
  intro c hc
  rw [h] at hc
  rcases List.mem_cons.mp hc with hce | hcr
  · omega
  · exact le_of_lt ((List.pairwise_cons.mp hpw).1 c hcr)

-- ── `stepCell`: row 0 is never touched ────────────────────────

theorem stepCell_row0 (now : Nat) (p : GridPos) (acc : Board × Bool)
    (hrow : p.row ≠ 0) (c' : Nat) :
    bget (stepCell now p acc).1 0 c' = bget acc.1 0 c' := by
  simp only [stepCell]
  cases hbg : bget acc.1 p.row p.col with
  | none => rfl
  | some tile =>
    by_cases hp0 : tile.pos.row = 0
    · simp [hp0]
    · simp only [hp0, if_false]
      cases hei : emptyInRow acc.1 (p.row + 1) with
      | nil =>
        by_cases hs : tile.settled
        · simp [hs]
        · simp only [hs, Bool.false_eq_true, if_false]
          exact bget_bset_ne _ _ _ _ _ _ (Or.inl hrow)
      | cons e rest =>
        cases hnf : tile.nextFallAt with
        | none =>
          exact bget_bset_ne _ _ _ _ _ _ (Or.inl hrow)
        | some due =>
          by_cases hd : now < due
          · simp [hd]
          · simp only [hd, if_false]
            rw [bget_bset_ne _ _ _ _ _ _ (Or.inl (by omega)),
              bget_bset_ne _ _ _ _ _ _ (Or.inl hp0)]

theorem bottomStep_row0 (p : GridPos) (acc : Board × Bool)
    (hrow : p.row ≠ 0) (c' : Nat) :
    bget (bottomStep p acc).1 0 c' = bget acc.1 0 c' := by
  simp only [bottomStep]
  cases hbg : bget acc.1 p.row p.col with
  | none => rfl
  | some tile =>
    by_cases hs : tile.settled
    · simp [hs]
    · simp only [hs, Bool.false_eq_true, if_false]
      exact bget_bset_ne _ _ _ _ _ _ (Or.inl hrow)

theorem gravCells_row_bounds : ∀ p ∈ gravCells, 1 ≤ p.row ∧ p.row ≤ 4 := by decide

theorem bottomCells_row : ∀ p ∈ cellsOfRow (NUM_ROWS - 1), p.row = 5 := by decide

theorem processGravityB_row0 (now : Nat) (b : Board) (c' : Nat) :
    bget (processGravityB now b).1 0 c' = bget b 0 c' := by
  unfold processGravityB
  have hstep1 : ∀ p ∈ gravCells, ∀ acc,
      (∀ k, bget acc.1 0 k = bget b 0 k) →
      ∀ k, bget (stepCell now p acc).1 0 k = bget b 0 k := by
    intro p hp acc hacc k
    rw [stepCell_row0 now p acc (by have := (gravCells_row_bounds p hp).1; omega) k]
    exact hacc k
  have hstep2 : ∀ p ∈ cellsOfRow (NUM_ROWS - 1), ∀ acc,
      (∀ k, bget acc.1 0 k = bget b 0 k) →
      ∀ k, bget (bottomStep p acc).1 0 k = bget b 0 k := by
    intro p hp acc hacc k
    rw [bottomStep_row0 p acc (by rw [bottomCells_row p hp]; omega) k]
    exact hacc k
  have h1 := runCells_inv (P := fun acc => ∀ k, bget acc.1 0 k = bget b 0 k)
    gravCells hstep1 (b, false) (fun _ => rfl)
  have h2 := runCells_inv (P := fun acc => ∀ k, bget acc.1 0 k = bget b 0 k)
    (cellsOfRow (NUM_ROWS - 1)) hstep2 _ h1
  exact h2 c'

theorem evaluateBoard_board (d : Dict) (s : GameState) :
    (evaluateBoard d s).board = s.board := by
  unfold evaluateBoard
  split <;> rfl

-- ── `stepCell` simulation: shape, pos-consistency, identity counts,
--    and stability of settled tiles with a cleared fall timer ───

theorem stepCell_sim (now : Nat) (p : GridPos) (acc : Board × Bool)
    (hsh : shapeOk acc.1) (hpos : posOk acc.1 = true) :
    shapeOk (stepCell now p acc).1 ∧
    posOk (stepCell now p acc).1 = true ∧
    (∀ i, idsCount i (stepCell now p acc).1 = idsCount i acc.1) ∧
    (∀ (q : GridPos) (t : Tile), bget acc.1 q.row q.col = some t → flagOk now t →
      ∃ u, bget (stepCell now p acc).1 q.row q.col = some u ∧ u.id = t.id ∧
        u.letter = t.letter ∧ u.pos = t.pos ∧ flagOk now u) := by
  simp only [stepCell]
  cases hbg : bget acc.1 p.row p.col with
  | none =>
    dsimp only
    exact ⟨hsh, hpos, fun _ => rfl, fun q t hq hf => ⟨t, hq, rfl, rfl, rfl, hf⟩⟩
  | some tile =>
    dsimp only
    obtain ⟨hr6, hcw⟩ := bget_some_bounds hsh hbg
    have hpe : tile.pos = ⟨p.row, p.col⟩ := posOk_read hsh hpos hbg
    by_cases hp0 : tile.pos.row = 0
    · rw [if_pos hp0]
      exact ⟨hsh, hpos, fun _ => rfl, fun q t hq hf => ⟨t, hq, rfl, rfl, rfl, hf⟩⟩
    · rw [if_neg hp0]
      cases hei : emptyInRow acc.1 (p.row + 1) with
      | nil =>
        dsimp only
        by_cases hs : tile.settled = true
        · rw [if_pos hs]
          exact ⟨hsh, hpos, fun _ => rfl, fun q t hq hf => ⟨t, hq, rfl, rfl, rfl, hf⟩⟩
        · rw [if_neg hs]
          refine ⟨shapeOk_bset hsh _ _ _, ?_, ?_, ?_⟩
          · exact posOk_bset hsh hpos hr6 hcw
              (fun u hu => by cases hu; exact hpe)
          · intro i
            dsimp only
            have heq := idsCount_bset hsh hr6 hcw
              (some { tile with settled := true, nextFallAt := none }) i
            rw [hbg] at heq
            have : idHit i (some { tile with settled := true, nextFallAt := none }) =
                idHit i (some tile) := idHit_congr rfl
            omega
          · intro q t hq hf
            dsimp only
            obtain ⟨qr, qc⟩ := q
            by_cases hq1 : qr = p.row ∧ qc = p.col
            · obtain ⟨h1, h2⟩ := hq1
              subst h1; subst h2
              rw [hbg] at hq
              cases hq
              refine ⟨{ tile with settled := true, nextFallAt := none },
                bget_bset_self hsh hr6 hcw _, rfl, rfl, hpe.trans hpe.symm, Or.inl ⟨rfl, rfl⟩⟩
            · have hne : p.row ≠ qr ∨ p.col ≠ qc := by tauto
              rw [bget_bset_ne _ _ _ _ _ _ hne]
              exact ⟨t, hq, rfl, rfl, rfl, hf⟩
      | cons e rest =>
        dsimp only
        obtain ⟨hew, hee, _⟩ := emptyInRow_head hei
        have hrow1 : p.row + 1 < 6 := row_lt_of_width_pos (by omega)
        cases hnf : tile.nextFallAt with
        | none =>
          dsimp only
          refine ⟨shapeOk_bset hsh _ _ _, ?_, ?_, ?_⟩
          · exact posOk_bset hsh hpos hr6 hcw
              (fun u hu => by cases hu; exact hpe)
          · intro i
            have heq := idsCount_bset hsh hr6 hcw
              (some { tile with nextFallAt := some (now + FALL_TICK_MS), settled := false }) i
            rw [hbg] at heq
            have hhit : idHit i
                (some { tile with nextFallAt := some (now + FALL_TICK_MS), settled := false }) =
                idHit i (some tile) := idHit_congr rfl
            omega
          · intro q t hq hf
            obtain ⟨qr, qc⟩ := q
            by_cases hq1 : qr = p.row ∧ qc = p.col
            · obtain ⟨h1, h2⟩ := hq1
              subst h1; subst h2
              rw [hbg] at hq
              cases hq
              exact ⟨{ tile with nextFallAt := some (now + FALL_TICK_MS), settled := false },
                bget_bset_self hsh hr6 hcw _, rfl, rfl, rfl, Or.inr ⟨rfl, rfl⟩⟩
            · have hne : p.row ≠ qr ∨ p.col ≠ qc := by tauto
              rw [bget_bset_ne _ _ _ _ _ _ hne]
              exact ⟨t, hq, rfl, rfl, rfl, hf⟩
        | some due =>
          dsimp only
          by_cases hd : now < due
          · rw [if_pos hd]
            exact ⟨hsh, hpos, fun _ => rfl, fun q t hq hf => ⟨t, hq, rfl, rfl, rfl, hf⟩⟩
          · rw [if_neg hd]
            rw [hpe]
            have hsh1 : shapeOk (bset acc.1 p.row p.col none) := shapeOk_bset hsh _ _ _
            have hpos1 : posOk (bset acc.1 p.row p.col none) = true :=
              posOk_bset hsh hpos hr6 hcw (fun u hu => by cases hu)
            have hget1 : bget (bset acc.1 p.row p.col none) (p.row + 1) e =
                bget acc.1 (p.row + 1) e :=
              bget_bset_ne _ _ _ _ _ _ (Or.inl (by omega))
            refine ⟨shapeOk_bset hsh1 _ _ _, ?_, ?_, ?_⟩
            · exact posOk_bset hsh1 hpos1 hrow1 hew (fun u hu => by cases hu; rfl)
            · intro i
              dsimp only
              have heq1 := idsCount_bset hsh hr6 hcw (none : Option Tile) i
              rw [hbg] at heq1
              have heq2 := idsCount_bset hsh1 hrow1 hew
                (some { tile with pos := (⟨p.row + 1, e⟩ : GridPos), nextFallAt := some (now + FALL_TICK_MS) }) i
              rw [hget1, hee] at heq2
              have hhit : idHit i
                  (some { tile with pos := (⟨p.row + 1, e⟩ : GridPos), nextFallAt := some (now + FALL_TICK_MS) }) =
                  idHit i (some tile) := idHit_congr rfl
              have hnone : idHit i (none : Option Tile) = 0 := rfl
              omega
            · intro q t hq hf
              dsimp only
              obtain ⟨qr, qc⟩ := q
              by_cases hq1 : qr = p.row ∧ qc = p.col
              · obtain ⟨h1, h2⟩ := hq1
                subst h1; subst h2
                rw [hbg] at hq
                cases hq
                rcases hf with ⟨_, hf2⟩ | ⟨_, hf2⟩
                · rw [hnf] at hf2; cases hf2
                · rw [hnf] at hf2
                  have : due = now + FALL_TICK_MS := by
                    cases hf2; rfl
                  exfalso
                  have : FALL_TICK_MS = 350 := rfl
                  omega
              · by_cases hq2 : qr = p.row + 1 ∧ qc = e
                · obtain ⟨h1, h2⟩ := hq2
                  subst h1; subst h2
                  rw [hee] at hq
                  cases hq
                · have hne1 : p.row ≠ qr ∨ p.col ≠ qc := by tauto
                  have hne2 : p.row + 1 ≠ qr ∨ e ≠ qc := by tauto
                  rw [bget_bset_ne _ _ _ _ _ _ hne2, bget_bset_ne _ _ _ _ _ _ hne1]
                  exact ⟨t, hq, rfl, rfl, rfl, hf⟩

theorem bottomStep_sim (now : Nat) (p : GridPos) (acc : Board × Bool)
    (hsh : shapeOk acc.1) (hpos : posOk acc.1 = true) :
    shapeOk (bottomStep p acc).1 ∧
    posOk (bottomStep p acc).1 = true ∧
    (∀ i, idsCount i (bottomStep p acc).1 = idsCount i acc.1) ∧
    (∀ (q : GridPos) (t : Tile), bget acc.1 q.row q.col = some t → flagOk now t →
      ∃ u, bget (bottomStep p acc).1 q.row q.col = some u ∧ u.id = t.id ∧
        u.letter = t.letter ∧ u.pos = t.pos ∧ flagOk now u) := by
  simp only [bottomStep]
  cases hbg : bget acc.1 p.row p.col with
  | none =>
    dsimp only
    exact ⟨hsh, hpos, fun _ => rfl, fun q t hq hf => ⟨t, hq, rfl, rfl, rfl, hf⟩⟩
  | some tile =>
    dsimp only
    obtain ⟨hr6, hcw⟩ := bget_some_bounds hsh hbg
    have hpe : tile.pos = ⟨p.row, p.col⟩ := posOk_read hsh hpos hbg
    by_cases hs : tile.settled = true
    · rw [if_pos hs]
      exact ⟨hsh, hpos, fun _ => rfl, fun q t hq hf => ⟨t, hq, rfl, rfl, rfl, hf⟩⟩
    · rw [if_neg hs]
      refine ⟨shapeOk_bset hsh _ _ _, ?_, ?_, ?_⟩
      · exact posOk_bset hsh hpos hr6 hcw (fun u hu => by cases hu; exact hpe)
      · intro i
        dsimp only
        have heq := idsCount_bset hsh hr6 hcw
          (some { tile with settled := true, nextFallAt := none }) i
        rw [hbg] at heq
        have : idHit i (some { tile with settled := true, nextFallAt := none }) =
            idHit i (some tile) := idHit_congr rfl
        omega
      · intro q t hq hf
        dsimp only
        obtain ⟨qr, qc⟩ := q
        by_cases hq1 : qr = p.row ∧ qc = p.col
        · obtain ⟨h1, h2⟩ := hq1
          subst h1; subst h2
          rw [hbg] at hq
          cases hq
          exact ⟨{ tile with settled := true, nextFallAt := none },
            bget_bset_self hsh hr6 hcw _, rfl, rfl, rfl, Or.inl ⟨rfl, rfl⟩⟩
        · have hne : p.row ≠ qr ∨ p.col ≠ qc := by tauto
          rw [bget_bset_ne _ _ _ _ _ _ hne]
          exact ⟨t, hq, rfl, rfl, rfl, hf⟩

/-- Whole-call simulation for `processGravity`'s board transformation. -/
theorem processGravityB_sim (now : Nat) (b : Board)
    (hsh : shapeOk b) (hpos : posOk b = true) :
    shapeOk (processGravityB now b).1 ∧
    posOk (processGravityB now b).1 = true ∧
    (∀ i, idsCount i (processGravityB now b).1 = idsCount i b) ∧
    (∀ (q : GridPos) (t : Tile), bget b q.row q.col = some t → flagOk now t →
      ∃ u, bget (processGravityB now b).1 q.row q.col = some u ∧ u.id = t.id ∧
        u.letter = t.letter ∧ u.pos = t.pos ∧ flagOk now u) := by
  unfold processGravityB
  have hstep1 : ∀ p ∈ gravCells, ∀ acc,
      (shapeOk acc.1 ∧ posOk acc.1 = true ∧
        (∀ i, idsCount i acc.1 = idsCount i b) ∧
        (∀ (q : GridPos) (t : Tile), bget b q.row q.col = some t → flagOk now t →
          ∃ u, bget acc.1 q.row q.col = some u ∧ u.id = t.id ∧
            u.letter = t.letter ∧ u.pos = t.pos ∧ flagOk now u)) →
      (shapeOk (stepCell now p acc).1 ∧ posOk (stepCell now p acc).1 = true ∧
        (∀ i, idsCount i (stepCell now p acc).1 = idsCount i b) ∧
        (∀ (q : GridPos) (t : Tile), bget b q.row q.col = some t → flagOk now t →
          ∃ u, bget (stepCell now p acc).1 q.row q.col = some u ∧ u.id = t.id ∧
            u.letter = t.letter ∧ u.pos = t.pos ∧ flagOk now u)) := by
    intro p _ acc ⟨h1, h2, h3, h4⟩
    obtain ⟨g1, g2, g3, g4⟩ := stepCell_sim now p acc h1 h2
    refine ⟨g1, g2, fun i => (g3 i).trans (h3 i), ?_⟩
    intro q t hq hf
    obtain ⟨u, hu1, hu2, hu3, hu4, hu5⟩ := h4 q t hq hf
    obtain ⟨v, hv1, hv2, hv3, hv4, hv5⟩ := g4 q u hu1 hu5
    exact ⟨v, hv1, hv2.trans hu2, hv3.trans hu3, hv4.trans hu4, hv5⟩
  have hstep2 : ∀ p ∈ cellsOfRow (NUM_ROWS - 1), ∀ acc,
      (shapeOk acc.1 ∧ posOk acc.1 = true ∧
        (∀ i, idsCount i acc.1 = idsCount i b) ∧
        (∀ (q : GridPos) (t : Tile), bget b q.row q.col = some t → flagOk now t →
          ∃ u, bget acc.1 q.row q.col = some u ∧ u.id = t.id ∧
            u.letter = t.letter ∧ u.pos = t.pos ∧ flagOk now u)) →
      (shapeOk (bottomStep p acc).1 ∧ posOk (bottomStep p acc).1 = true ∧
        (∀ i, idsCount i (bottomStep p acc).1 = idsCount i b) ∧
        (∀ (q : GridPos) (t : Tile), bget b q.row q.col = some t → flagOk now t →
          ∃ u, bget (bottomStep p acc).1 q.row q.col = some u ∧ u.id = t.id ∧
            u.letter = t.letter ∧ u.pos = t.pos ∧ flagOk now u)) := by
    intro p _ acc ⟨h1, h2, h3, h4⟩
    obtain ⟨g1, g2, g3, g4⟩ := bottomStep_sim now p acc h1 h2
    refine ⟨g1, g2, fun i => (g3 i).trans (h3 i), ?_⟩
    intro q t hq hf
    obtain ⟨u, hu1, hu2, hu3, hu4, hu5⟩ := h4 q t hq hf
    obtain ⟨v, hv1, hv2, hv3, hv4, hv5⟩ := g4 q u hu1 hu5
    exact ⟨v, hv1, hv2.trans hu2, hv3.trans hu3, hv4.trans hu4, hv5⟩
  have hinit : shapeOk ((b, false) : Board × Bool).1 ∧
      posOk ((b, false) : Board × Bool).1 = true ∧
      (∀ i, idsCount i ((b, false) : Board × Bool).1 = idsCount i b) ∧
      (∀ (q : GridPos) (t : Tile), bget b q.row q.col = some t → flagOk now t →
        ∃ u, bget ((b, false) : Board × Bool).1 q.row q.col = some u ∧ u.id = t.id ∧
          u.letter = t.letter ∧ u.pos = t.pos ∧ flagOk now u) :=
    ⟨hsh, hpos, fun _ => rfl, fun q t hq hf => ⟨t, hq, rfl, rfl, rfl, hf⟩⟩
  have h1 := runCells_inv (P := fun acc => shapeOk acc.1 ∧ posOk acc.1 = true ∧
      (∀ i, idsCount i acc.1 = idsCount i b) ∧
      (∀ (q : GridPos) (t : Tile), bget b q.row q.col = some t → flagOk now t →
        ∃ u, bget acc.1 q.row q.col = some u ∧ u.id = t.id ∧
          u.letter = t.letter ∧ u.pos = t.pos ∧ flagOk now u))
    gravCells hstep1 (b, false) hinit
  exact runCells_inv (P := fun acc => shapeOk acc.1 ∧ posOk acc.1 = true ∧
      (∀ i, idsCount i acc.1 = idsCount i b) ∧
      (∀ (q : GridPos) (t : Tile), bget b q.row q.col = some t → flagOk now t →
        ∃ u, bget acc.1 q.row q.col = some u ∧ u.id = t.id ∧
          u.letter = t.letter ∧ u.pos = t.pos ∧ flagOk now u))
    (cellsOfRow (NUM_ROWS - 1)) hstep2 _ h1

/-- The board reached by one `processGravity` call, with the
dictionary-independent part exposed. -/
theorem processGravity_board (d : Dict) (now : Nat) (s : GameState) :
    (processGravity d now s).board =
      if s.phase = .playing then (processGravityB now s.board).1 else s.board := by
  unfold processGravity
  by_cases hp : s.phase = .playing
  · rw [if_neg (by simp [hp]), if_pos hp]
    by_cases hfull : (processGravityB now s.board).2 && isFull (processGravityB now s.board).1
    · rw [if_pos hfull, evaluateBoard_board]
    · rw [if_neg hfull]
  · rw [if_pos hp, if_neg hp]

-- ── Words built from rows ─────────────────────────────────────

theorem jsToUpper_append (a b : String) : jsToUpper (a ++ b) = jsToUpper a ++ jsToUpper b := by
  unfold jsToUpper
  have hd : (a ++ b).data = a.data ++ b.data := String.data_append a b
  rw [hd, List.map_append]
  rfl

theorem jsToUpper_length (s : String) : (jsToUpper s).length = s.length := by
  unfold jsToUpper
  show (s.data.map Char.toUpper).length = s.length
  rw [List.length_map]
  rfl

theorem scrabbleSum_append (a b : String) :
    scrabbleSum (a ++ b) = scrabbleSum a + scrabbleSum b := by
  unfold scrabbleSum
  rw [String.data_append, List.map_append, List.sum_append]

theorem validLetters_fact :
    ∀ l ∈ validLetters, 1 ≤ scrabbleSum (jsToUpper l) ∧ 1 ≤ l.length := by decide

/-- Reading a list of occupied columns with generator letters yields a word
whose score weight and length dominate the column count. -/
theorem collectRow_full (b : Board) (r : Nat) :
    ∀ cols : List Nat,
      (∀ c ∈ cols, ∃ t, bget b r c = some t ∧ t.letter ∈ validLetters) →
      ∃ w, collectRow b r cols = some w ∧
        cols.length ≤ scrabbleSum (jsToUpper w) ∧ cols.length ≤ w.length := by
  intro cols
  induction cols with
  | nil => intro _; exact ⟨"", rfl, by simp, by simp⟩
  | cons c cs ih =>
    intro h
    obtain ⟨t, ht, hvl⟩ := h c (List.mem_cons_self _ _)
    obtain ⟨w, hw, hsum, hlen⟩ := ih (fun c2 hc2 => h c2 (List.mem_cons_of_mem _ hc2))
    refine ⟨t.letter ++ w, ?_, ?_, ?_⟩
    · simp only [collectRow, ht, hw]
      rfl
    · rw [jsToUpper_append, scrabbleSum_append]
      have := (validLetters_fact t.letter hvl).1
      simp only [List.length_cons]
      omega
    · rw [String.length_append]
      have h1 := (validLetters_fact t.letter hvl).2
      simp only [List.length_cons]
      omega

/-- Reading a list of occupied columns whose letters are single characters
or the digraph "Qu" yields a word with one extra character per Qu tile. -/
theorem collectRow_length (b : Board) (r : Nat) :
    ∀ cols : List Nat,
      (∀ c ∈ cols, ∃ t, bget b r c = some t ∧ (t.letter.length = 1 ∨ t.letter = "Qu")) →
      ∃ w, collectRow b r cols = some w ∧
        w.length = cols.length + cols.countP (fun c => quAt b r c) := by
  intro cols
  induction cols with
  | nil => intro _; exact ⟨"", rfl, by simp⟩
  | cons c cs ih =>
    intro h
    obtain ⟨t, ht, hform⟩ := h c (List.mem_cons_self _ _)
    obtain ⟨w, hw, hlen⟩ := ih (fun c2 hc2 => h c2 (List.mem_cons_of_mem _ hc2))
    refine ⟨t.letter ++ w, ?_, ?_⟩
    · simp only [collectRow, ht, hw]
      rfl
    · rw [String.length_append, hlen]
      rcases hform with h1 | h1
      · have hqu : quAt b r c = false := by
          unfold quAt
          rw [ht]
          dsimp only
          simp only [beq_eq_false_iff_ne, ne_eq]
          intro hq
          rw [hq] at h1
          simp [String.length] at h1
        rw [List.countP_cons_of_neg _ _ (by simp [hqu])]
        simp only [List.length_cons]
        omega
      · have hqu : quAt b r c = true := by
          unfold quAt
          rw [ht]
          dsimp only
          rw [h1]
          decide
        have h2 : t.letter.length = 2 := by rw [h1]; rfl
        rw [List.countP_cons_of_pos _ _ (by simp [hqu])]
        simp only [List.length_cons]
        omega

theorem rowWidth_ge_two : ∀ r < 6, 2 ≤ rowWidth r := by decide

theorem isRowFull_cells {b : Board} {r : Nat} (h : isRowFull b r = true) :
    ∀ c, c < rowWidth r → ∃ t, bget b r c = some t := by
  intro c hc
  have := List.all_eq_true.mp h c (List.mem_range.mpr hc)
  exact Option.isSome_iff_exists.mp this

-- ── Scoring facts ─────────────────────────────────────────────

theorem one_le_lengthMultiplier (n : Nat) : 1 ≤ lengthMultiplier n := by
  unfold lengthMultiplier
  split_ifs <;> norm_num

theorem scoreWord_pos {w : String} (h2 : 2 ≤ scrabbleSum w) : 0 < scoreWord w := by
  have hm := one_le_lengthMultiplier w.length
  have hs : (2 : ℚ) ≤ (scrabbleSum w : ℚ) := by exact_mod_cast h2
  have hmul : (2 : ℚ) ≤ (scrabbleSum w : ℚ) * lengthMultiplier w.length := by
    calc (2 : ℚ) ≤ (scrabbleSum w : ℚ) := hs
    _ = (scrabbleSum w : ℚ) * 1 := by ring
    _ ≤ (scrabbleSum w : ℚ) * lengthMultiplier w.length := by
        apply mul_le_mul_of_nonneg_left hm
        positivity
  unfold scoreWord jsRound
  have h1 : (1 : ℚ) ≤ (scrabbleSum w : ℚ) * lengthMultiplier w.length + 1/2 := by linarith
  have := Int.le_floor.mpr (by exact_mod_cast h1 :
    ((1 : ℤ) : ℚ) ≤ (scrabbleSum w : ℚ) * lengthMultiplier w.length + 1/2)
  omega

-- ── Row evaluation facts ──────────────────────────────────────

theorem evalRow_fields {d : Dict} {b : Board} {r : Nat} {e : RowResult}
    (h : evalRow d b r = some e) :
    e.row = r ∧ e.word = readRow b r ∧ e.valid = isWord d (readRow b r) ∧
      e.score = (if e.valid = true then scoreWord e.word else 0) := by
  unfold evalRow at h
  by_cases hl : (readRow b r).length = 0
  · rw [if_pos hl] at h; cases h
  · rw [if_neg hl] at h
    cases h
    refine ⟨rfl, rfl, rfl, ?_⟩
    by_cases hv : isWord d (readRow b r) = true <;> simp [hv]

theorem roundScoreOf_eq_filter (results : List RowResult)
    (h : ∀ e ∈ results, (e.valid = true → 0 < e.score) ∧ (e.valid = false → e.score = 0)) :
    roundScoreOf results = ((results.filter (fun e => e.valid)).map (fun e => e.score)).sum := by
  induction results with
  | nil => rfl
  | cons e es ih =>
    have hes := ih (fun x hx => h x (List.mem_cons_of_mem _ hx))
    have he := h e (List.mem_cons_self _ _)
    unfold roundScoreOf at hes ⊢
    cases hv : e.valid with
    | true =>
      have hpos : 0 < e.score := he.1 hv
      simp only [List.map_cons, List.sum_cons, List.filter_cons]
      rw [if_pos ⟨hv, hpos⟩, if_pos hv]
      simp only [List.map_cons, List.sum_cons]
      omega
    | false =>
      simp only [List.map_cons, List.sum_cons, List.filter_cons]
      rw [if_neg (by simp [hv]), if_neg (by simp [hv])]
      omega

theorem lettersOk_read {b : Board} (hsh : shapeOk b) (h : lettersOk b = true)
    {r c : Nat} {t : Tile} (ht : bget b r c = some t) : t.letter ∈ validLetters := by
  obtain ⟨hr, hc⟩ := bget_some_bounds hsh ht
  have h2 := List.all_eq_true.mp h ⟨r, c⟩ (mem_allCells.mpr ⟨hr, hc⟩)
  rw [ht] at h2
  simpa [List.contains] using h2

theorem nonHandCells_bounds :
    ∀ p ∈ nonHandCells, 1 ≤ p.row ∧ p.row < 6 ∧ p.col < rowWidth p.row := by decide

theorem mem_scheduleRefill (col : Nat) (l : List Nat) : col ∈ scheduleRefill col l := by
  unfold scheduleRefill
  by_cases h : col ∈ l
  · rw [if_pos h]; exact h
  · rw [if_neg h]; exact List.mem_cons_self _ _

/-- `evaluateBoard`'s credited score when the dictionary has loaded. -/
theorem evaluateBoard_score_eq (d : Dict) (s : GameState)
    (hl : isDictionaryLoaded d = true) :
    (evaluateBoard d s).score = s.score +
      (if (0 < (evalResults d s.board).length ∧
            (evalResults d s.board).all (fun e => e.valid) = true) ∧
          0 < roundScoreOf (evalResults d s.board)
        then 2 * roundScoreOf (evalResults d s.board)
        else roundScoreOf (evalResults d s.board)) := by
  unfold evaluateBoard
  rw [hl]
  rfl

/-- A full row of generator letters evaluates to a row result whose word is
the row reading, with weight at least 2. -/
theorem evalRow_full {d : Dict} {b : Board} {r : Nat}
    (hsh : shapeOk b) (hlet : lettersOk b = true) (hr : r < 6)
    (hfull : isRowFull b r = true) :
    evalRow d b r = some ⟨r, readRow b r, isWord d (readRow b r),
        if isWord d (readRow b r) = true then scoreWord (readRow b r) else 0⟩ ∧
      2 ≤ scrabbleSum (readRow b r) := by
  have hcols : ∀ c ∈ List.range (rowWidth r), ∃ t, bget b r c = some t ∧
      t.letter ∈ validLetters := by
    intro c hc
    obtain ⟨t, ht⟩ := isRowFull_cells hfull c (List.mem_range.mp hc)
    exact ⟨t, ht, lettersOk_read hsh hlet ht⟩
  obtain ⟨w, hw, hsum, hlen⟩ := collectRow_full b r _ hcols
  rw [List.length_range] at hsum hlen
  have hread : readRow b r = jsToUpper w := by
    unfold readRow
    rw [hw]
    rfl
  have hw2 := rowWidth_ge_two r hr
  have hsum2 : 2 ≤ scrabbleSum (readRow b r) := by rw [hread]; omega
  have hlength : (readRow b r).length ≠ 0 := by
    rw [hread, jsToUpper_length]
    omega
  refine ⟨?_, hsum2⟩
  unfold evalRow
  rw [if_neg hlength]

-- ── Concrete score values (⌊·⌋ on ℚ does not kernel-reduce, so these are
--    established through `Int.floor_eq_iff` rather than `decide`) ─

theorem jsRound_eq (q : ℚ) (n : ℤ) (h1 : (n : ℚ) ≤ q + 1/2) (h2 : q + 1/2 < (n : ℚ) + 1) :
    jsRound q = n := by
  unfold jsRound
  exact Int.floor_eq_iff.mpr ⟨h1, by push_cast; linarith⟩

theorem scoreWord_AT : scoreWord "AT" = 2 := by
  have h1 : scrabbleSum "AT" = 2 := by decide
  have h2 : ("AT" : String).length = 2 := by decide
  unfold scoreWord
  rw [h1, h2]
  exact jsRound_eq _ _ (by norm_num [lengthMultiplier]) (by norm_num [lengthMultiplier])

theorem scoreWord_QUA : scoreWord "QUA" = 18 := by
  have h1 : scrabbleSum "QUA" = 12 := by decide
  have h2 : ("QUA" : String).length = 3 := by decide
  unfold scoreWord
  rw [h1, h2]
  exact jsRound_eq _ _ (by norm_num [lengthMultiplier]) (by norm_num [lengthMultiplier])

theorem scoreWord_QU8 : scoreWord "QUAAAAAA" = 17 := by
  have h1 : scrabbleSum "QUAAAAAA" = 17 := by decide
  have h2 : ("QUAAAAAA" : String).length = 8 := by decide
  unfold scoreWord
  rw [h1, h2]
  exact jsRound_eq _ _ (by norm_num [lengthMultiplier]) (by norm_num [lengthMultiplier])

theorem evalRow_AT_valid : evalRow dictAT boardAT 5 = some ⟨5, "AT", true, 2⟩ := by
  have hr : readRow boardAT 5 = "AT" := by decide
  unfold evalRow
  rw [hr, if_neg (by decide)]
  have hw : isWord dictAT "AT" = true := by decide
  rw [hw]
  dsimp only
  rw [if_pos rfl, scoreWord_AT]

theorem evalRow_AT_invalid : evalRow dictZZ boardAT 5 = some ⟨5, "AT", false, 0⟩ := by
  have hr : readRow boardAT 5 = "AT" := by decide
  unfold evalRow
  rw [hr, if_neg (by decide)]
  have hw : isWord dictZZ "AT" = false := by decide
  rw [hw]
  dsimp only
  rw [if_neg (by simp)]

/-!
## Claim theorems
-/

/-- C7: if the dictionary is not yet loaded when a full board is detected,
`evaluateBoard` returns with no state change at all — the phase, score,
board contents, input-enabled flag and timers are all unchanged and no row
is scored, because the whole state is returned untouched. -/
theorem C7_unloaded_dictionary_skips_evaluation (d : Dict) (s : GameState)
    (h : isDictionaryLoaded d = false) : evaluateBoard d s = s := by
  unfold evaluateBoard
  rw [h]
  rfl

theorem C7_witness : evaluateBoard dictNone stateFullA = stateFullA :=
  C7_unloaded_dictionary_skips_evaluation dictNone stateFullA rfl

/-- C6: a pointer-down on a covered, settled, non-hand tile is rejected
without failure: `onPointerDown` creates no drag state, and consequently the
pointer-move handler leaves the board untouched (the tile does not move).
`Board.isCovered` is modelled from the spec, as its definition is not among
the provided sources. -/
theorem C6_covered_tile_rejected (b : Board) (p : GridPos) (tile : Tile)
    (hrow : p.row ≠ 0) (ht : bget b p.row p.col = some tile)
    (_hsettled : tile.settled = true) (hcov : isCovered b p = true) :
    onPointerDown true b (some p) = none ∧
    ∀ crossed : Bool, dragThresholdCross (onPointerDown true b (some p)) crossed b = (b, false) := by
  have hnone : onPointerDown true b (some p) = none := by
    unfold onPointerDown
    rw [if_neg (by decide)]
    dsimp only
    rw [ht]
    dsimp only
    rw [if_pos ⟨hrow, Or.inr hcov⟩]
  refine ⟨hnone, ?_⟩
  intro crossed
  rw [hnone]
  rfl

theorem C6_witness :
    onPointerDown true boardCovered (some ⟨1, 0⟩) = none ∧
    ∀ crossed : Bool,
      dragThresholdCross (onPointerDown true boardCovered (some ⟨1, 0⟩)) crossed boardCovered =
        (boardCovered, false) :=
  C6_covered_tile_rejected boardCovered ⟨1, 0⟩
    { id := 1, letter := "B", pos := ⟨1, 0⟩, settled := true, nextFallAt := none }
    (by decide) (by decide) (by decide) (by decide)

/-- C5: for every row read at evaluation, a dictionary word scores
`round(scrabble-letter sum × length multiplier)` — with a Qu unit counting
Q's value plus U's value, since it contributes the two characters Q and U —
and an invalid row scores 0; concretely a full 2-tile bottom row spelling
"AT" scores exactly 2 when "AT" is in the dictionary and 0 when it is not. -/
theorem C5_row_score_formula :
    (∀ (d : Dict) (b : Board) (r : Nat) (e : RowResult), evalRow d b r = some e →
      (e.valid = true →
        e.score = jsRound ((scrabbleSum e.word : ℚ) * lengthMultiplier e.word.length)) ∧
      (e.valid = false → e.score = 0)) ∧
    scrabbleSum "QU" = scrabbleValue 'Q' + scrabbleValue 'U' ∧
    evalRow dictAT boardAT 5 = some ⟨5, "AT", true, 2⟩ ∧
    evalRow dictZZ boardAT 5 = some ⟨5, "AT", false, 0⟩ := by
  refine ⟨?_, by decide, evalRow_AT_valid, evalRow_AT_invalid⟩
  intro d b r e h
  obtain ⟨_, hword, _, hscore⟩ := evalRow_fields h
  constructor
  · intro hv
    rw [hscore, if_pos hv]
    rfl
  · intro hv
    rw [hscore, if_neg (by rw [hv]; simp)]

theorem C5_witness :
    evalRow dictAT boardAT 5 = some ⟨5, "AT", true, 2⟩ ∧
    ((⟨5, "AT", true, 2⟩ : RowResult).valid = true →
      (⟨5, "AT", true, 2⟩ : RowResult).score =
        jsRound ((scrabbleSum "AT" : ℚ) * lengthMultiplier ("AT" : String).length)) :=
  ⟨C5_row_score_formula.2.2.1,
    (C5_row_score_formula.1 dictAT boardAT 5 ⟨5, "AT", true, 2⟩ C5_row_score_formula.2.2.1).1⟩

/-- C10: `readRow` concatenates the row's letters left-to-right and
upper-cases them, so a "Qu" tile contributes two characters, and `scoreWord`
selects the length multiplier by that character count (lengths absent from
the table default to multiplier 1): a full row with `k` Qu tiles is scored
with the multiplier for `rowWidth + k` letters.  A full width-2 bottom row
holding a Qu tile reads "QUA" and scores with the length-3 multiplier 3/2
(score 18, not the length-2 outcome 12); a full width-7 row holding a Qu
tile reads 8 characters and scores with the default multiplier 1 (score 17,
not the length-7 outcome 102). -/
theorem C10_qu_shifts_length_multiplier :
    (∀ (b : Board) (r : Nat),
      (∀ c, c < rowWidth r → ∃ t, bget b r c = some t ∧
        (t.letter.length = 1 ∨ t.letter = "Qu")) →
      (readRow b r).length = rowWidth r + quCount b r ∧
      scoreWord (readRow b r) =
        jsRound ((scrabbleSum (readRow b r) : ℚ) *
          lengthMultiplier (rowWidth r + quCount b r))) ∧
    readRow boardQu2 5 = "QUA" ∧
    lengthMultiplier 3 = 3/2 ∧
    scoreWord (readRow boardQu2 5) = 18 ∧
    jsRound ((scrabbleSum "QUA" : ℚ) * lengthMultiplier 2) = 12 ∧
    readRow boardQu7 0 = "QUAAAAAA" ∧
    lengthMultiplier 8 = 1 ∧
    scoreWord (readRow boardQu7 0) = 17 ∧
    lengthMultiplier 7 = 6 ∧
    jsRound ((scrabbleSum "QUAAAAAA" : ℚ) * lengthMultiplier 7) = 102 := by
  have hq2 : readRow boardQu2 5 = "QUA" := by decide
  have hq7 : readRow boardQu7 0 = "QUAAAAAA" := by decide
  refine ⟨?_, hq2, by norm_num [lengthMultiplier], by rw [hq2]; exact scoreWord_QUA,
    ?_, hq7, by norm_num [lengthMultiplier], by rw [hq7]; exact scoreWord_QU8,
    by norm_num [lengthMultiplier], ?_⟩
  case refine_2 =>
    have h1 : scrabbleSum "QUA" = 12 := by decide
    rw [h1]
    exact jsRound_eq _ _ (by norm_num [lengthMultiplier]) (by norm_num [lengthMultiplier])
  case refine_3 =>
    have h1 : scrabbleSum "QUAAAAAA" = 17 := by decide
    rw [h1]
    exact jsRound_eq _ _ (by norm_num [lengthMultiplier]) (by norm_num [lengthMultiplier])
  intro b r h
  have hcols : ∀ c ∈ List.range (rowWidth r), ∃ t, bget b r c = some t ∧
      (t.letter.length = 1 ∨ t.letter = "Qu") := by
    intro c hc
    exact h c (List.mem_range.mp hc)
  obtain ⟨w, hw, hlen⟩ := collectRow_length b r _ hcols
  have hread : readRow b r = jsToUpper w := by
    unfold readRow
    rw [hw]
    rfl
  have hlen2 : (readRow b r).length = rowWidth r + quCount b r := by
    rw [hread, jsToUpper_length, hlen, List.length_range]
    rfl
  refine ⟨hlen2, ?_⟩
  unfold scoreWord
  rw [hlen2]

theorem C10_witness :
    (readRow boardQu2 5).length = rowWidth 5 + quCount boardQu2 5 ∧
    scoreWord (readRow boardQu2 5) =
      jsRound ((scrabbleSum (readRow boardQu2 5) : ℚ) *
        lengthMultiplier (rowWidth 5 + quCount boardQu2 5)) :=
  C10_qu_shifts_length_multiplier.1 boardQu2 5 (by
    intro c hc
    have h2 : c < 2 := hc
    interval_cases c
    · exact ⟨{ id := 0, letter := "Qu", pos := ⟨5, 0⟩, settled := true, nextFallAt := none },
        by decide, Or.inr rfl⟩
    · exact ⟨{ id := 1, letter := "A", pos := ⟨5, 1⟩, settled := true, nextFallAt := none },
        by decide, Or.inl rfl⟩)

set_option maxRecDepth 4000 in
/-- C1 (counterexample): `Board.applyGravity` does not leave hand-row tiles
in row 0 — on a board whose only tile sits at `(0, 0)` with `(1, 0)` free,
one `applyGravity` step moves that tile out of the hand row into `(1, 0)`. -/
theorem C1_counterexample :
    (bget boardC1 0 0).map Tile.id = some 0 ∧
    bget (applyGravityB boardC1).1 0 0 = none ∧
    (bget (applyGravityB boardC1).1 1 0).map Tile.id = some 0 := by decide

/-- C1 (amended): the controller's per-frame `processGravity` leaves every
hand-row (row 0) cell unchanged — hand tiles never move under the live
per-tile gravity; `Board.applyGravity`, by contrast, does move a row-0 tile
down one row whenever one of its row-1 fall targets is free, as the
counterexample shows. -/
theorem C1_amended_processGravity_preserves_hand_row
    (d : Dict) (now : Nat) (s : GameState) (c : Nat) :
    bget (processGravity d now s).board 0 c = bget s.board 0 c := by
  rw [processGravity_board]
  by_cases hp : s.phase = .playing
  · rw [if_pos hp]
    exact processGravityB_row0 now s.board c
  · rw [if_neg hp]

-- ── Structural facts about `fallTargets` ──────────────────────

theorem fallTargets_mem {p q : GridPos} (h : q ∈ fallTargets p) :
    q.row = p.row + 1 ∧ (q.col + 1 = p.col ∨ q.col = p.col) ∧
      q.col < rowWidth (p.row + 1) := by
  unfold fallTargets at h
  by_cases hr : NUM_ROWS - 1 ≤ p.row
  · rw [if_pos hr] at h; cases h
  · rw [if_neg hr] at h
    dsimp only at h
    rcases List.mem_append.mp h with h1 | h1
    · by_cases hc : 1 ≤ p.col ∧ p.col - 1 < rowWidth (p.row + 1)
      · rw [if_pos hc] at h1
        rcases List.mem_singleton.mp h1 with rfl
        exact ⟨rfl, Or.inl (by show p.col - 1 + 1 = p.col; omega), hc.2⟩
      · rw [if_neg hc] at h1; cases h1
    · by_cases hc : p.col < rowWidth (p.row + 1)
      · rw [if_pos hc] at h1
        rcases List.mem_singleton.mp h1 with rfl
        exact ⟨rfl, Or.inr rfl, hc⟩
      · rw [if_neg hc] at h1; cases h1

theorem fallTargets_both {r c : Nat} (hr : r < 5) (hc1 : 1 ≤ c)
    (hc2 : c < rowWidth (r + 1)) :
    fallTargets ⟨r, c⟩ = [⟨r + 1, c - 1⟩, ⟨r + 1, c⟩] := by
  unfold fallTargets
  rw [if_neg (by show ¬ (NUM_ROWS - 1 ≤ r); have h6 : NUM_ROWS = 6 := rfl; omega)]
  dsimp only
  rw [if_pos ⟨hc1, by show c - 1 < rowWidth (r + 1); omega⟩, if_pos hc2]
  rfl

set_option maxRecDepth 4000 in
/-- C3 (counterexample): the controller's per-frame gravity moves the tile
at `(1, 5)` one row down into `(2, 0)`, the leftmost empty column of row 2 —
a cell that is not among the `fallTargets` candidates of `(1, 5)` (which are
only `(2, 4)` here). -/
theorem C3_counterexample :
    fallTargets ⟨1, 5⟩ = [⟨2, 4⟩] ∧
    (bget stateC3.board 1 5).map Tile.id = some 50 ∧
    bget (processGravity dictNone 1000 stateC3).board 1 5 = none ∧
    (bget (processGravity dictNone 1000 stateC3).board 2 0).map Tile.id = some 50 ∧
    ¬ (⟨2, 0⟩ : GridPos) ∈ fallTargets ⟨1, 5⟩ := by decide

/-- C3 (amended): gravity always advances a tile by exactly one row, but the
two gravity routines choose the target column differently.  The per-frame
`processGravity` loop body moves a due tile into the leftmost empty column
of the row below (which need not be one of the at-most-two `fallTargets`
candidates, as the counterexample shows).  `Board.applyGravity`'s loop body
does move into the first empty `fallTargets` candidate — one of
`(r+1, c-1)` or `(r+1, c)` restricted to existing columns — and when both
candidates exist the list puts the left candidate `(r+1, c-1)` before the
right one, so an empty left candidate is taken first. -/
theorem C3_amended_gravity_target_selection :
    (∀ (now : Nat) (p : GridPos) (acc : Board × Bool) (tile : Tile) (due e : Nat)
        (rest : List Nat),
      bget acc.1 p.row p.col = some tile → tile.pos.row ≠ 0 →
      emptyInRow acc.1 (p.row + 1) = e :: rest →
      tile.nextFallAt = some due → ¬ now < due →
      stepCell now p acc =
        (bset (bset acc.1 tile.pos.row tile.pos.col none) (p.row + 1) e
          (some { tile with pos := ⟨p.row + 1, e⟩, nextFallAt := some (now + FALL_TICK_MS) }), acc.2) ∧
      (∀ c ∈ emptyInRow acc.1 (p.row + 1), e ≤ c)) ∧
    (∀ (p : GridPos) (acc : Board × Bool) (tile : Tile) (q : GridPos),
      bget acc.1 p.row p.col = some tile →
      (fallTargets tile.pos).find? (fun q2 => (bget acc.1 q2.row q2.col).isNone) = some q →
      applyStep p acc =
        (bset (bset acc.1 tile.pos.row tile.pos.col none) q.row q.col
          (some { tile with pos := q, settled := false }), true) ∧
      q ∈ fallTargets tile.pos ∧ q.row = tile.pos.row + 1 ∧
      (q.col + 1 = tile.pos.col ∨ q.col = tile.pos.col)) ∧
    (∀ r c : Nat, r < 5 → 1 ≤ c → c < rowWidth (r + 1) →
      fallTargets ⟨r, c⟩ = [⟨r + 1, c - 1⟩, ⟨r + 1, c⟩]) := by
  refine ⟨?_, ?_, fun r c hr hc1 hc2 => fallTargets_both hr hc1 hc2⟩
  · intro now p acc tile due e rest ht hrow hei hnf hd
    constructor
    · simp only [stepCell]
      rw [ht]
      dsimp only
      rw [if_neg hrow, hei]
      dsimp only
      rw [hnf]
      dsimp only
      rw [if_neg hd]
    · exact fun c hc => (emptyInRow_head hei).2.2 c hc
  · intro p acc tile q ht hfind
    have hmem : q ∈ fallTargets tile.pos := List.mem_of_find?_eq_some hfind
    obtain ⟨hq1, hq2, _⟩ := fallTargets_mem hmem
    refine ⟨?_, hmem, hq1, hq2⟩
    simp only [applyStep]
    rw [ht]
    dsimp only
    rw [hfind]

theorem C3_amended_witness :
    (stepCell 1000 ⟨1, 5⟩ (boardC3, false) =
      (bset (bset boardC3 1 5 none) 2 0
        (some { id := 50, letter := "A", pos := ⟨2, 0⟩, settled := false, nextFallAt := some (1000 + FALL_TICK_MS) }), false) ∧
      (∀ c ∈ emptyInRow boardC3 2, 0 ≤ c)) ∧
    fallTargets ⟨2, 3⟩ = [⟨3, 2⟩, ⟨3, 3⟩] :=
  ⟨C3_amended_gravity_target_selection.1 1000 ⟨1, 5⟩ (boardC3, false)
      { id := 50, letter := "A", pos := ⟨1, 5⟩, settled := false, nextFallAt := some 1000 }
      1000 0 [] (by decide) (by decide) (by decide) (by decide) (by decide),
    C3_amended_gravity_target_selection.2.2 2 3 (by omega) (by omega) (by decide)⟩

set_option maxRecDepth 8000 in
/-- C9 (counterexample): settle is not monotone — starting from `stateC9`,
tile 10 at `(3, 0)` is marked settled by the first `processGravity` call
(row 4 below it is full), yet two further gravity calls relocate it to
`(4, 0)` without any drag or board clear: the tile below fell away, tile 10
was unsettled again and fell. -/
theorem C9_counterexample :
    (bget (processGravity dictNone 1000 stateC9).board 3 0).map Tile.settled = some true ∧
    (bget (processGravity dictNone 1000 stateC9).board 3 0).map Tile.id = some 10 ∧
    bget (processGravity dictNone 1700 (processGravity dictNone 1350
      (processGravity dictNone 1000 stateC9))).board 3 0 = none ∧
    (bget (processGravity dictNone 1700 (processGravity dictNone 1350
      (processGravity dictNone 1000 stateC9))).board 4 0).map Tile.id = some 10 := by decide

/-- C9 (amended): within a single `processGravity` call, a tile that is
settled with its fall timer cleared keeps its cell, identity, letter and
recorded position — it is never moved by that call.  Settledness is not
permanent, however: when gravity itself vacates a cell in the row below, a
later call unsettles the tile (re-arming its fall timer) and a still later
call moves it, as the counterexample shows, so across calls a settled tile
can relocate without any drag removal or board clear. -/
theorem C9_amended_settled_tile_fixed_in_one_call
    (d : Dict) (now : Nat) (s : GameState) (q : GridPos) (t : Tile)
    (hsh : shapeOk s.board) (hpos : posOk s.board = true)
    (ht : bget s.board q.row q.col = some t)
    (hset : t.settled = true) (hnf : t.nextFallAt = none) :
    ∃ u, bget (processGravity d now s).board q.row q.col = some u ∧
      u.id = t.id ∧ u.letter = t.letter ∧ u.pos = t.pos := by
  rw [processGravity_board]
  by_cases hp : s.phase = .playing
  · rw [if_pos hp]
    obtain ⟨_, _, _, hkeep⟩ := processGravityB_sim now s.board hsh hpos
    obtain ⟨u, hu1, hu2, hu3, hu4, _⟩ := hkeep q t ht (Or.inl ⟨hset, hnf⟩)
    exact ⟨u, hu1, hu2, hu3, hu4⟩
  · rw [if_neg hp]
    exact ⟨t, ht, rfl, rfl, rfl⟩

theorem C9_amended_witness :
    ∃ u, bget (processGravity dictNone 1000 stateC3).board 3 0 = some u ∧
      u.id = 5 ∧ u.letter = "A" ∧ u.pos = (⟨3, 0⟩ : GridPos) :=
  C9_amended_settled_tile_fixed_in_one_call dictNone 1000 stateC3 ⟨3, 0⟩
    { id := 5, letter := "A", pos := ⟨3, 0⟩, settled := true, nextFallAt := none }
    (by decide) (by decide) (by decide) (by decide) (by decide)

/-- C8: tapping an occupied hand slot while the phase is `playing` moves the
tapped tile to the first empty position in row-major order over the non-hand
rows (the head of the row-major-ordered empty-cell list; `nonHandCells` is
row-major sorted), arms its fall timer, and schedules a refill for the
vacated hand column; when no empty position exists below the hand the tap is
a complete no-op — the state, and in particular the pending-refill set, is
returned unchanged. -/
theorem C8_hand_tap_drops_to_first_empty (now c : Nat) (s : GameState) (tile : Tile)
    (hph : s.phase = .playing) (hsh : shapeOk s.board) (hpos : posOk s.board = true)
    (ht : bget s.board 0 c = some tile) :
    (findLeftmostEmpty s.board = none → handTap now ⟨0, c⟩ s = s) ∧
    (∀ q : GridPos, findLeftmostEmpty s.board = some q →
      (nonHandCells.filter (fun p => isEmptyPos s.board p)).head? = some q ∧
      1 ≤ q.row ∧
      bget (handTap now ⟨0, c⟩ s).board q.row q.col =
        some { tile with settled := false, nextFallAt := some (now + FALL_TICK_MS), pos := q } ∧
      bget (handTap now ⟨0, c⟩ s).board 0 c = none ∧
      c ∈ (handTap now ⟨0, c⟩ s).refillPending) ∧
    List.Pairwise (fun p1 p2 : GridPos =>
      p1.row < p2.row ∨ p1.row = p2.row ∧ p1.col < p2.col) nonHandCells := by
  obtain ⟨hr0, hc0⟩ := bget_some_bounds hsh ht
  have hpe : tile.pos = ⟨0, c⟩ := posOk_read hsh hpos ht
  have hunfold : handTap now ⟨0, c⟩ s = dropFromHand now ⟨0, c⟩ s := by
    unfold handTap
    rw [if_pos hph]
  refine ⟨?_, ?_, by decide⟩
  · intro hnone
    rw [hunfold]
    unfold dropFromHand
    dsimp only
    rw [ht]
    dsimp only
    rw [hnone]
  · intro q hq
    have hqmem : q ∈ nonHandCells := List.mem_of_find?_eq_some hq
    have hqe : isEmptyPos s.board q = true := List.find?_some hq
    have hqnone : bget s.board q.row q.col = none := by
      simpa [isEmptyPos, Option.isNone_iff_eq_none] using hqe
    obtain ⟨hq1, hq6, hqw⟩ := nonHandCells_bounds q hqmem
    have hstate : handTap now ⟨0, c⟩ s = { s with
        board := bset (bset s.board tile.pos.row tile.pos.col none) q.row q.col
          (some { tile with settled := false, nextFallAt := some (now + FALL_TICK_MS), pos := q })
        refillPending := scheduleRefill c s.refillPending } := by
      rw [hunfold]
      unfold dropFromHand
      dsimp only
      rw [ht]
      dsimp only
      rw [hq]
    have hsh1 : shapeOk (bset s.board tile.pos.row tile.pos.col none) :=
      shapeOk_bset hsh _ _ _
    refine ⟨?_, hq1, ?_, ?_, ?_⟩
    · rw [← find_eq_head_filter]
      exact hq
    · rw [hstate]
      dsimp only
      exact bget_bset_self hsh1 hq6 hqw _
    · rw [hstate]
      dsimp only
      rw [bget_bset_ne _ _ _ _ _ _ (Or.inl (by omega))]
      rw [hpe]
      exact bget_bset_self hsh hr0 hc0 _
    · rw [hstate]
      dsimp only
      exact mem_scheduleRefill c s.refillPending

theorem C8_witness :
    (bget (handTap 700 ⟨0, 0⟩ stateHand).board 1 0 =
      some { id := 7, letter := "A", pos := ⟨1, 0⟩, settled := false, nextFallAt := some (700 + FALL_TICK_MS) } ∧
     bget (handTap 700 ⟨0, 0⟩ stateHand).board 0 0 = none ∧
     0 ∈ (handTap 700 ⟨0, 0⟩ stateHand).refillPending) ∧
    handTap 700 ⟨0, 0⟩ stateFullA = stateFullA := by
  have h1 := C8_hand_tap_drops_to_first_empty 700 0 stateHand
    { id := 7, letter := "A", pos := ⟨0, 0⟩, settled := true, nextFallAt := none }
    (by decide) (by decide) (by decide) (by decide)
  have h2 := C8_hand_tap_drops_to_first_empty 700 0 stateFullA
    { id := 0, letter := "A", pos := ⟨0, 0⟩, settled := true, nextFallAt := none }
    (by decide) (by decide) (by decide) (by decide)
  obtain ⟨-, hsome, -⟩ := h1
  obtain ⟨hb1, hb2, hb3⟩ := (hsome ⟨1, 0⟩ (by decide)).2.2
  exact ⟨⟨hb1, hb2, hb3⟩, h2.1 (by decide)⟩

/-- C4: for a full-board evaluation (dictionary loaded, every row full of
generator letters), if every entry of the per-row results list is valid the
credited score is exactly twice the sum of the individual row scores, and if
at least one entry is invalid the credited score is the undoubled sum of the
valid entries' scores — both computed from the same `evalResults` list that
`evaluateBoard` stores as `clearResults`. -/
theorem C4_perfect_board_doubling (d : Dict) (s : GameState)
    (hl : isDictionaryLoaded d = true) (hsh : shapeOk s.board)
    (hlet : lettersOk s.board = true)
    (hrows : ∀ r < 6, isRowFull s.board r = true) :
    ((∀ e ∈ evalResults d s.board, e.valid = true) →
      (evaluateBoard d s).score =
        s.score + 2 * ((evalResults d s.board).map (fun e => e.score)).sum) ∧
    ((∃ e ∈ evalResults d s.board, e.valid = false) →
      (evaluateBoard d s).score =
        s.score + (((evalResults d s.board).filter (fun e => e.valid)).map
          (fun e => e.score)).sum) := by
  have hentry : ∀ e ∈ evalResults d s.board,
      (e.valid = true → 0 < e.score) ∧ (e.valid = false → e.score = 0) := by
    intro e he
    obtain ⟨r, hrmem, hev⟩ := List.mem_filterMap.mp he
    have hr6 : r < 6 := by
      have := List.mem_range.mp hrmem
      have h6 : NUM_ROWS = 6 := rfl
      omega
    obtain ⟨heval, hsum2⟩ := evalRow_full (d := d) hsh hlet hr6 (hrows r hr6)
    rw [hev] at heval
    have he2 := Option.some.inj heval
    constructor
    · intro hv
      rw [he2] at hv ⊢
      dsimp only at hv ⊢
      rw [if_pos hv]
      exact scoreWord_pos hsum2
    · intro hv
      rw [he2] at hv ⊢
      dsimp only at hv ⊢
      rw [if_neg (by rw [hv]; simp)]
  have hne : evalResults d s.board ≠ [] := by
    obtain ⟨heval0, -⟩ := evalRow_full (d := d) hsh hlet
      (by omega : (0 : Nat) < 6) (hrows 0 (by omega))
    intro hcon
    have hmem : (⟨0, readRow s.board 0, isWord d (readRow s.board 0),
        if isWord d (readRow s.board 0) = true then scoreWord (readRow s.board 0)
        else 0⟩ : RowResult) ∈ evalResults d s.board :=
      List.mem_filterMap.mpr ⟨0, List.mem_range.mpr (by
        have h6 : NUM_ROWS = 6 := rfl
        omega), heval0⟩
    rw [hcon] at hmem
    cases hmem
  constructor
  · intro hall
    rw [evaluateBoard_score_eq d s hl]
    have hfilter : (evalResults d s.board).filter (fun e => e.valid) =
        evalResults d s.board :=
      List.filter_eq_self.mpr (fun e he => by rw [hall e he])
    have hrs : roundScoreOf (evalResults d s.board) =
        ((evalResults d s.board).map (fun e => e.score)).sum := by
      rw [roundScoreOf_eq_filter _ hentry, hfilter]
    have hpos_rs : 0 < roundScoreOf (evalResults d s.board) := by
      rw [hrs]
      apply sum_int_pos
      · intro x hx
        obtain ⟨e, he, rfl⟩ := List.mem_map.mp hx
        exact le_of_lt ((hentry e he).1 (hall e he))
      · obtain ⟨e0, he0⟩ := List.exists_mem_of_ne_nil _ hne
        exact ⟨e0.score, List.mem_map_of_mem _ he0, (hentry e0 he0).1 (hall e0 he0)⟩
    rw [if_pos ⟨⟨List.length_pos.mpr hne,
      List.all_eq_true.mpr (fun e he => by rw [hall e he])⟩, hpos_rs⟩, hrs]
  · rintro ⟨e, he, hinv⟩
    rw [evaluateBoard_score_eq d s hl]
    have hcond : ¬ ((0 < (evalResults d s.board).length ∧
        (evalResults d s.board).all (fun e => e.valid) = true) ∧
        0 < roundScoreOf (evalResults d s.board)) := by
      rintro ⟨⟨-, hall⟩, -⟩
      have hx := List.all_eq_true.mp hall e he
      rw [hinv] at hx
      cases hx
    rw [if_neg hcond, roundScoreOf_eq_filter _ hentry]

theorem C4_witness :
    (evaluateBoard dictAllA stateFullA).score =
      stateFullA.score + 2 * ((evalResults dictAllA stateFullA.board).map
        (fun e => e.score)).sum ∧
    (evaluateBoard dictMissOne stateFullA).score =
      stateFullA.score + (((evalResults dictMissOne stateFullA.board).filter
        (fun e => e.valid)).map (fun e => e.score)).sum := by
  have h1 := C4_perfect_board_doubling dictAllA stateFullA rfl
    (by decide) (by decide) (by decide)
  have h2 := C4_perfect_board_doubling dictMissOne stateFullA rfl
    (by decide) (by decide) (by decide)
  exact ⟨h1.1 (by decide), h2.2 (by decide)⟩

set_option maxRecDepth 4000 in
/-- C2 (counterexample): a drag released on a full board (no empty position
anywhere, so both the drop target and the nearest-empty fallback are `none`)
forces the dragged tile into its origin by a bare `Board.set`, overwriting
the tile that re-occupied the origin during the drag: identity 10 is on the
board before the release and gone after it, while the dragged identity 100
stands in its cell — the forced-origin fallback loses a tile identity. -/
theorem C2_counterexample :
    isFull boardFullA = true ∧
    idsCount 10 boardFullA = 1 ∧
    idsCount 10 (dragRelease 0 boardFullA tileDragged ⟨1, 0⟩ none none) = 0 ∧
    idsCount 100 (dragRelease 0 boardFullA tileDragged ⟨1, 0⟩ none none) = 1 ∧
    (bget (dragRelease 0 boardFullA tileDragged ⟨1, 0⟩ none none) 1 0).map Tile.id =
      some 100 := by decide

/-- C2 (amended): every controller operation preserves the number of cells
holding each tile identity — so no identity is ever duplicated and, with one
exception, none is lost: tap-to-drop and gravity preserve every identity's
cell count exactly; a refill leaves every existing identity's count
unchanged and adds the fresh identity at most once; starting a drag removes
exactly the dragged tile, and a release with an empty drop target, an empty
origin, or a nearest-empty fallback restores exactly the dragged tile.  The
exception is the forced-origin fallback (drop target and nearest-empty both
`none` with the origin re-occupied): it restores the dragged tile but
removes the occupying tile's identity from the board, as the counterexample
shows. -/
theorem C2_amended_identity_conservation :
    (∀ (now : Nat) (p : GridPos) (s : GameState), shapeOk s.board → posOk s.board = true →
      ∀ i, idsCount i (handTap now p s).board = idsCount i s.board) ∧
    (∀ (d : Dict) (now : Nat) (s : GameState), shapeOk s.board → posOk s.board = true →
      ∀ i, idsCount i (processGravity d now s).board = idsCount i s.board) ∧
    (∀ (d : Dict) (letter : String) (col : Nat) (s : GameState),
      shapeOk s.board → col < rowWidth 0 →
      (∀ i, i ≠ s.nextTileId →
        idsCount i (refillFire d letter col s).board = idsCount i s.board) ∧
      (idsCount s.nextTileId s.board = 0 →
        idsCount s.nextTileId (refillFire d letter col s).board ≤ 1)) ∧
    (∀ (b : Board) (dr : DragState), shapeOk b →
      bget b dr.tile.pos.row dr.tile.pos.col = some dr.tile →
      ∀ i, idsCount i (dragThresholdCross (some dr) true b).1 + idHit i (some dr.tile) =
        idsCount i b) ∧
    (∀ (now : Nat) (b : Board) (tile : Tile) (origin : GridPos) (dt alt : Option GridPos),
      shapeOk b → origin.row < 6 → origin.col < rowWidth origin.row →
      (∀ q, dt = some q → q.row < 6 ∧ q.col < rowWidth q.row ∧ bget b q.row q.col = none) →
      (∀ a, alt = some a → a.row < 6 ∧ a.col < rowWidth a.row ∧ bget b a.row a.col = none) →
      (dt = none → bget b origin.row origin.col ≠ none → alt ≠ none) →
      ∀ i, idsCount i (dragRelease now b tile origin dt alt) =
        idsCount i b + idHit i (some tile)) ∧
    (∀ (now : Nat) (b : Board) (tile occ : Tile) (origin : GridPos),
      shapeOk b → origin.row < 6 → origin.col < rowWidth origin.row →
      bget b origin.row origin.col = some occ →
      ∀ i, idsCount i (dragRelease now b tile origin none none) + idHit i (some occ) =
        idsCount i b + idHit i (some tile)) := by
  refine ⟨?_, ?_, ?_, ?_, ?_, ?_⟩
  · -- tap-to-drop
    intro now p s hsh hpos i
    unfold handTap
    by_cases hph : s.phase = .playing
    · rw [if_pos hph]
      unfold dropFromHand
      dsimp only
      cases ht : bget s.board p.row p.col with
      | none => rfl
      | some tile =>
        dsimp only
        cases hq : findLeftmostEmpty s.board with
        | none => rfl
        | some q =>
          dsimp only
          obtain ⟨hr0, hc0⟩ := bget_some_bounds hsh ht
          have hpe : tile.pos = ⟨p.row, p.col⟩ := posOk_read hsh hpos ht
          have hqe : isEmptyPos s.board q = true := List.find?_some hq
          have hqnone : bget s.board q.row q.col = none := by
            simpa [isEmptyPos, Option.isNone_iff_eq_none] using hqe
          obtain ⟨-, hq6, hqw⟩ := nonHandCells_bounds q (List.mem_of_find?_eq_some hq)
          rw [hpe]
          have hsh1 : shapeOk (bset s.board p.row p.col none) := shapeOk_bset hsh _ _ _
          have heq1 := idsCount_bset hsh hr0 hc0 (none : Option Tile) i
          rw [ht] at heq1
          have heq2 := idsCount_bset hsh1 hq6 hqw
            (some { tile with settled := false, nextFallAt := some (now + FALL_TICK_MS), pos := q }) i
          have hget1 : bget (bset s.board p.row p.col none) q.row q.col =
              bget s.board q.row q.col := by
            apply bget_bset_ne
            by_contra hcon
            push_neg at hcon
            rw [← hcon.1, ← hcon.2, ht] at hqnone
            cases hqnone
          rw [hget1, hqnone] at heq2
          have hhit : idHit i
              (some { tile with settled := false, nextFallAt := some (now + FALL_TICK_MS), pos := q }) =
              idHit i (some tile) := idHit_congr rfl
          have hz : idHit i (none : Option Tile) = 0 := rfl
          dsimp only
          omega
    · rw [if_neg hph]
  · -- gravity
    intro d now s hsh hpos i
    rw [processGravity_board]
    by_cases hph : s.phase = .playing
    · rw [if_pos hph]
      exact (processGravityB_sim now s.board hsh hpos).2.2.1 i
    · rw [if_neg hph]
  · -- hand refill
    intro d letter col s hsh hcol
    unfold refillFire
    by_cases hph : s.phase ≠ .playing
    · rw [if_pos hph]
      refine ⟨fun i _ => rfl, fun h0 => ?_⟩
      dsimp only
      omega
    · rw [if_neg hph]
      by_cases hocc : !isEmptyPos s.board ⟨0, col⟩
      · rw [if_pos hocc]
        refine ⟨fun i _ => rfl, fun h0 => ?_⟩
        dsimp only
        omega
      · rw [if_neg hocc]
        dsimp only
        have hempty : bget s.board 0 col = none := by
          simp only [Bool.not_eq_true', Bool.not_eq_false] at hocc
          simpa [isEmptyPos, Option.isNone_iff_eq_none] using hocc
        have heq := idsCount_bset hsh (by omega : (0 : Nat) < 6) hcol
          (some { id := s.nextTileId, letter := letter, pos := ⟨0, col⟩, settled := true, nextFallAt := none }) 0
        have hboard : ∀ i,
            idsCount i (if isFull (bset s.board 0 col (some { id := s.nextTileId, letter := letter, pos := ⟨0, col⟩, settled := true, nextFallAt := none })) = true then
              (evaluateBoard d { s with
                refillPending := s.refillPending.erase col
                board := bset s.board 0 col (some { id := s.nextTileId, letter := letter, pos := ⟨0, col⟩, settled := true, nextFallAt := none })
                nextTileId := s.nextTileId + 1 }) else
              { s with
                refillPending := s.refillPending.erase col
                board := bset s.board 0 col (some { id := s.nextTileId, letter := letter, pos := ⟨0, col⟩, settled := true, nextFallAt := none })
                nextTileId := s.nextTileId + 1 }).board =
            idsCount i (bset s.board 0 col (some { id := s.nextTileId, letter := letter, pos := ⟨0, col⟩, settled := true, nextFallAt := none })) := by
          intro i
          split
          · rw [evaluateBoard_board]
          · rfl
        constructor
        · intro i hne
          rw [hboard i]
          have heqi := idsCount_bset hsh (by omega : (0 : Nat) < 6) hcol
            (some { id := s.nextTileId, letter := letter, pos := ⟨0, col⟩, settled := true, nextFallAt := none }) i
          rw [hempty] at heqi
          have hz : idHit i (none : Option Tile) = 0 := rfl
          have hh : idHit i
              (some { id := s.nextTileId, letter := letter, pos := (⟨0, col⟩ : GridPos), settled := true, nextFallAt := none }) = 0 := by
            simp [idHit, Ne.symm hne]
          omega
        · intro h0
          rw [hboard s.nextTileId]
          have heqi := idsCount_bset hsh (by omega : (0 : Nat) < 6) hcol
            (some { id := s.nextTileId, letter := letter, pos := ⟨0, col⟩, settled := true, nextFallAt := none }) s.nextTileId
          rw [hempty] at heqi
          have hz : idHit s.nextTileId (none : Option Tile) = 0 := rfl
          have hh : idHit s.nextTileId
              (some { id := s.nextTileId, letter := letter, pos := (⟨0, col⟩ : GridPos), settled := true, nextFallAt := none }) = 1 := by
            simp [idHit]
          omega
  · -- drag start (threshold crossing)
    intro b dr hsh ht i
    obtain ⟨hr, hc⟩ := bget_some_bounds hsh ht
    unfold dragThresholdCross
    dsimp only
    rw [if_pos rfl]
    dsimp only
    have heq := idsCount_bset hsh hr hc (none : Option Tile) i
    rw [ht] at heq
    have hz : idHit i (none : Option Tile) = 0 := rfl
    omega
  · -- drag release, non-forced paths
    intro now b tile origin dt alt hsh hor hoc hdt halt hsafe i
    unfold dragRelease
    cases dt with
    | some q =>
      dsimp only
      obtain ⟨hq6, hqw, hqnone⟩ := hdt q rfl
      have heq := idsCount_bset hsh hq6 hqw
        (some { tile with pos := q, settled := false, nextFallAt := if 1 ≤ q.row ∧ q.row < NUM_ROWS - 1 then some (now + FALL_TICK_MS) else tile.nextFallAt }) i
      rw [hqnone] at heq
      have hhit := idHit_congr (i := i)
        (t := tile) (u := { tile with pos := q, settled := false, nextFallAt := if 1 ≤ q.row ∧ q.row < NUM_ROWS - 1 then some (now + FALL_TICK_MS) else tile.nextFallAt }) rfl
      have hz : idHit i (none : Option Tile) = 0 := rfl
      omega
    | none =>
      dsimp only
      by_cases hoe : (bget b origin.row origin.col).isNone = true
      · rw [if_pos hoe]
        have honone : bget b origin.row origin.col = none :=
          Option.isNone_iff_eq_none.mp hoe
        have heq := idsCount_bset hsh hor hoc
          (some { tile with pos := origin, settled := decide (origin.row = 0) }) i
        rw [honone] at heq
        have hhit := idHit_congr (i := i) (t := tile)
          (u := { tile with pos := origin, settled := decide (origin.row = 0) }) rfl
        have hz : idHit i (none : Option Tile) = 0 := rfl
        omega
      · rw [if_neg hoe]
        cases alt with
        | some a =>
          dsimp only
          obtain ⟨ha6, haw, hanone⟩ := halt a rfl
          have heq := idsCount_bset hsh ha6 haw
            (some { tile with pos := a, settled := false, nextFallAt := if 1 ≤ a.row ∧ a.row < NUM_ROWS - 1 then some (now + FALL_TICK_MS) else tile.nextFallAt }) i
          rw [hanone] at heq
          have hhit := idHit_congr (i := i) (t := tile)
            (u := { tile with pos := a, settled := false, nextFallAt := if 1 ≤ a.row ∧ a.row < NUM_ROWS - 1 then some (now + FALL_TICK_MS) else tile.nextFallAt }) rfl
          have hz : idHit i (none : Option Tile) = 0 := rfl
          omega
        | none =>
          exfalso
          exact hsafe rfl (by simpa [Option.isNone_iff_eq_none] using hoe) rfl
  · -- drag release, forced-origin overwrite
    intro now b tile occ origin hsh hor hoc hocc i
    unfold dragRelease
    dsimp only
    rw [if_neg (by rw [hocc]; simp)]
    have heq := idsCount_bset hsh hor hoc
      (some { tile with pos := origin, settled := true }) i
    rw [hocc] at heq
    have hhit := idHit_congr (i := i) (t := tile)
      (u := { tile with pos := origin, settled := true }) rfl
    omega

theorem C2_amended_witness :
    idsCount 7 (handTap 0 ⟨0, 0⟩ stateHand).board = idsCount 7 stateHand.board ∧
    idsCount 10 (processGravity dictNone 1000 stateC9).board = idsCount 10 stateC9.board ∧
    idsCount 7 (refillFire dictNone "E" 3 stateHand).board = idsCount 7 stateHand.board ∧
    idsCount 50 (refillFire dictNone "E" 3 stateHand).board ≤ 1 ∧
    idsCount 7 (dragThresholdCross
      (some ⟨{ id := 7, letter := "A", pos := ⟨0, 0⟩, settled := true, nextFallAt := none },
        ⟨0, 0⟩⟩) true boardHand).1 +
      idHit 7 (some { id := 7, letter := "A", pos := ⟨0, 0⟩, settled := true, nextFallAt := none }) =
      idsCount 7 boardHand ∧
    idsCount 100 (dragRelease 0 boardHand tileDragged ⟨1, 0⟩ none none) =
      idsCount 100 boardHand + idHit 100 (some tileDragged) ∧
    (idsCount 10 (dragRelease 0 boardFullA tileDragged ⟨1, 0⟩ none none) +
      idHit 10 (some { id := 10, letter := "A", pos := ⟨1, 0⟩, settled := true, nextFallAt := none }) =
      idsCount 10 boardFullA + idHit 10 (some tileDragged)) := by
  refine ⟨?_, ?_, ?_, ?_, ?_, ?_, ?_⟩
  · exact C2_amended_identity_conservation.1 0 ⟨0, 0⟩ stateHand (by decide) (by decide) 7
  · exact C2_amended_identity_conservation.2.1 dictNone 1000 stateC9
      (by decide) (by decide) 10
  · exact (C2_amended_identity_conservation.2.2.1 dictNone "E" 3 stateHand
      (by decide) (by decide)).1 7 (by decide)
  · exact (C2_amended_identity_conservation.2.2.1 dictNone "E" 3 stateHand
      (by decide) (by decide)).2 (by decide)
  · exact C2_amended_identity_conservation.2.2.2.1 boardHand
      ⟨{ id := 7, letter := "A", pos := ⟨0, 0⟩, settled := true, nextFallAt := none }, ⟨0, 0⟩⟩
      (by decide) (by decide) 7
  · exact C2_amended_identity_conservation.2.2.2.2.1 0 boardHand tileDragged ⟨1, 0⟩
      none none (by decide) (by decide) (by decide)
      (fun q hq => nomatch hq) (fun a ha => nomatch ha)
      (fun _ hne _ => hne (by decide)) 100
  · exact C2_amended_identity_conservation.2.2.2.2.2 0 boardFullA tileDragged
      { id := 10, letter := "A", pos := ⟨1, 0⟩, settled := true, nextFallAt := none }
      ⟨1, 0⟩ (by decide) (by decide) (by decide) (by decide) 10

end Cascade
